import Mathlib

/-!
Verification of the `Struct` binary-record class of `src/classes/struct.py`.

The Python class is embedded shallowly.  `Struct` instances are mutable
Python objects, and several of the verified properties (copy isolation,
nested-field aliasing) are about object identity, so the embedding uses an
explicit heap: a `Heap` is a list of `StructObj`s, and every reference to a
`Struct` instance is an index (`Nat`) into that heap.  Mutating operations
return an updated heap.  Recursion through the heap is bounded by an
explicit fuel parameter; `PRes.div` marks fuel exhaustion (i.e. the result
of the model run says nothing), while `PRes.exn` models a raised Python
exception.
-/

set_option autoImplicit false

namespace PyStruct

/-- Python exceptions raised by the code under `src/classes/struct.py`:
`TypeError`, `SyntaxError`, `struct.error` (pack/unpack failures),
`KeyError`, `ValueError` (from `max()` on an empty sequence),
`NotImplementedError` and `IndexError`. -/
inductive Err where
  | typeError
  | syntaxError
  | structError
  | keyError
  | valueError
  | notImplemented
  | indexError
  deriving DecidableEq, Repr

/-- Result of running a (possibly heap-mutating) model computation:
a value, a raised exception, or fuel exhaustion (`div`). -/
inductive PRes (α : Type) where
  | ok (a : α)
  | exn (e : Err)
  | div
  deriving DecidableEq, Repr

namespace PRes

def bind {α β : Type} : PRes α → (α → PRes β) → PRes β
  | ok a, f => f a
  | exn e, _ => exn e
  | div, _ => div

instance : Monad PRes where
  pure := ok
  bind := bind

/-- Extract the value of a successful run, with a fallback. -/
def getD {α : Type} : PRes α → α → α
  | ok a, _ => a
  | _, d => d

end PRes

/-! ## Byte sequences -/

/-- A Python `bytes` value: a list of byte values. -/
abbrev Bytes := List Nat

/-- Little-endian encoding of `n` in exactly `w` bytes (`n` taken mod `256^w`). -/
def natLEb : Nat → Nat → Bytes
  | 0, _ => []
  | w + 1, n => (n % 256) :: natLEb w (n / 256)

/-- Little-endian decoding of a byte list. -/
def lebNat : Bytes → Nat
  | [] => 0
  | b :: r => b + 256 * lebNat r

/-- Strip all trailing NUL bytes, as Python's `bytes.rstrip(b"\x00")` does. -/
def rstripNulls (bs : Bytes) : Bytes :=
  (((bs.reverse).dropWhile (fun b => b == 0))).reverse

/-- Right-pad `bs` with NUL bytes to width `w`, or truncate it to `w`,
as `struct.pack` does for the `s` format. -/
def padTrunc (bs : Bytes) (w : Nat) : Bytes :=
  if bs.length ≤ w then bs ++ List.replicate (w - bs.length) 0 else bs.take w

/-! ## Format tag grammar (`_RE_STRUCT_NUMBER`, `_RE_STRUCT_STRING`) -/

/-- Byte-order / alignment prefix characters `[@=<>!]`. -/
def isOrderChar (c : Char) : Bool :=
  c == '@' || c == '=' || c == '<' || c == '>' || c == '!'

/-- The numeric kind characters of `_RE_STRUCT_NUMBER_RAW`: `[\?bBdfhHiIlLnNqQ]`. -/
def isNumKind (c : Char) : Bool :=
  c == '?' || c == 'b' || c == 'B' || c == 'd' || c == 'f' || c == 'h' ||
  c == 'H' || c == 'i' || c == 'I' || c == 'l' || c == 'L' || c == 'n' ||
  c == 'N' || c == 'q' || c == 'Q'

/-- Match of `_RE_STRUCT_NUMBER_RAW = "^[@=<>!]?[\?bBdfhHiIlLnNqQ]$"` on a char list. -/
def matchNumberChars : List Char → Bool
  | [c] => isNumKind c
  | [p, c] => isOrderChar p && isNumKind c
  | _ => false

/-- Helper for the string regex: `(\d)*[cs]`. -/
def digitsThenStrKind : List Char → Bool
  | [] => false
  | [c] => c == 'c' || c == 's'
  | c :: rest => c.isDigit && digitsThenStrKind rest

/-- Match of `_RE_STRUCT_STRING_RAW = "^[@=<>!]?(\d)*[cs]$"` on a char list. -/
def matchStringChars : List Char → Bool
  | [] => false
  | c :: rest =>
    if isOrderChar c then digitsThenStrKind rest
    else digitsThenStrKind (c :: rest)

/-- Match of the number regex on a format string. -/
def matchNumberB (s : String) : Bool := matchNumberChars s.toList

/-- Match of the string regex on a format string. -/
def matchStringB (s : String) : Bool := matchStringChars s.toList

/-- A parsed `struct` format tag: native (`@` or no prefix) vs. standard
sizing, big- vs. little-endian byte order, an optional repeat count and the
kind character.  (The reference platform is x86-64 Linux: native byte order
is little-endian, native `l`/`L`/`n`/`N` are 8 bytes.) -/
structure FmtSpec where
  native : Bool
  big : Bool
  count : Option Nat
  kind : Char
  deriving DecidableEq, Repr

/-- Numeric value of a digit sequence. -/
def digitsVal (cs : List Char) : Nat :=
  cs.foldl (fun acc c => acc * 10 + (c.toNat - 48)) 0

/-- All kind characters accepted by the Python `struct` module that the two
regexes can produce (numeric kinds plus `c` and `s`). -/
def isKindChar (c : Char) : Bool := isNumKind c || c == 'c' || c == 's'

/-- Modelled from the spec: the single-item format grammar of the Python
`struct` standard library (missing from `src/`): an optional byte-order
prefix, an optional decimal repeat count, and one kind character. -/
def parseFmt (l : List Char) : Option FmtSpec :=
  let pr : Bool × Bool × List Char :=
    match l with
    | c :: r =>
      if isOrderChar c then (c == '@', c == '>' || c == '!', r)
      else (true, false, l)
    | [] => (true, false, l)
  let ds := pr.2.2.takeWhile Char.isDigit
  let rest := pr.2.2.dropWhile Char.isDigit
  match rest with
  | [kc] =>
    if isKindChar kc then
      some ⟨pr.1, pr.2.1, (if ds.isEmpty then none else some (digitsVal ds)), kc⟩
    else none
  | _ => none

/-- Modelled from the spec: per-item byte width of each `struct` kind
character (missing from `src/`; widths of the CPython `struct` module on
x86-64 Linux).  `none` means the kind is invalid in standard (non-native)
mode, as `n`/`N` are. -/
def itemSize (native : Bool) (k : Char) : Option Nat :=
  if k == '?' || k == 'b' || k == 'B' || k == 'c' || k == 's' then some 1
  else if k == 'h' || k == 'H' then some 2
  else if k == 'i' || k == 'I' then some 4
  else if k == 'l' || k == 'L' then (if native then some 8 else some 4)
  else if k == 'q' || k == 'Q' then some 8
  else if k == 'n' || k == 'N' then (if native then some 8 else none)
  else if k == 'f' then some 4
  else if k == 'd' then some 8
  else none

/-- Signed integer kind characters. -/
def isSignedKind (k : Char) : Bool :=
  k == 'b' || k == 'h' || k == 'i' || k == 'l' || k == 'q' || k == 'n'

/-- Unsigned integer kind characters. -/
def isUnsignedKind (k : Char) : Bool :=
  k == 'B' || k == 'H' || k == 'I' || k == 'L' || k == 'Q' || k == 'N'

/-- `struct.calcsize` for a single-item format string: repeat count times
per-item width (`calcsize` multiplies the count for every kind). -/
def structCalcsizeFmt (s : String) : PRes Nat :=
  match parseFmt s.toList with
  | none => .exn .structError
  | some sp =>
    match itemSize sp.native sp.kind with
    | none => .exn .structError
    | some w => .ok (sp.count.getD 1 * w)

/-! ## IEEE 754 conversions for the `f` and `d` kinds

A Python `float` is a binary64 value; it is modelled by its 64-bit pattern.
Packing with `d` stores the pattern verbatim; packing with `f` narrows to
binary32 with round-to-nearest-even (overflow to infinity raises, as
CPython's float packing does); unpacking `f` widens exactly. -/

/-- Round-to-nearest-even of `n / 2^sh`. -/
def roundNE (n sh : Nat) : Nat :=
  let q := n / 2 ^ sh
  let r := n % 2 ^ sh
  let half := 2 ^ sh / 2
  if r > half || (r == half && q % 2 == 1) then q + 1 else q

/-- Modelled from the spec: exact widening of a binary32 bit pattern to a
binary64 bit pattern (the `struct` library's unpacking of the `f` kind,
missing from `src/`). -/
def widenF (p : Nat) : Nat :=
  let s := p / 2 ^ 31 % 2
  let e := p / 2 ^ 23 % 2 ^ 8
  let m := p % 2 ^ 23
  if e == 255 then s * 2 ^ 63 + 2047 * 2 ^ 52 + m * 2 ^ 29
  else if e == 0 then
    if m == 0 then s * 2 ^ 63
    else
      let j := Nat.log2 m
      s * 2 ^ 63 + (j + 874) * 2 ^ 52 + (m - 2 ^ j) * 2 ^ (52 - j)
  else s * 2 ^ 63 + (e + 896) * 2 ^ 52 + m * 2 ^ 29

/-- Modelled from the spec: narrowing of a binary64 bit pattern to a
binary32 bit pattern with round-to-nearest-even (the `struct` library's
packing of the `f` kind, missing from `src/`).  `none` models the
"float too large to pack" error raised when a finite value overflows. -/
def narrowF (d : Nat) : Option Nat :=
  let s := d / 2 ^ 63 % 2
  let e := d / 2 ^ 52 % 2 ^ 11
  let m := d % 2 ^ 52
  if e == 2047 then
    some (s * 2 ^ 31 + 255 * 2 ^ 23 + (if m == 0 then 0 else max 1 (m / 2 ^ 29)))
  else
    let sig := 2 ^ 52 + m
    if e ≥ 897 then
      -- candidate normal: single-precision biased exponent e - 896 ≥ 1
      let q := roundNE sig 29
      let q2 := if q == 2 ^ 24 then 2 ^ 23 else q
      let e2 := if q == 2 ^ 24 then e - 896 + 1 else e - 896
      if e2 ≥ 255 then none else some (s * 2 ^ 31 + e2 * 2 ^ 23 + (q2 - 2 ^ 23))
    else if e == 0 then some (s * 2 ^ 31)
    else
      -- subnormal or zero result: denormalize by 30 - (e - 896) bits
      let q := roundNE sig (29 + (897 - e))
      if q == 2 ^ 23 then some (s * 2 ^ 31 + 1 * 2 ^ 23)
      else some (s * 2 ^ 31 + q)

/-- A binary64 pattern is exactly representable in binary32: narrowing
succeeds, stays in 32-bit range and widening back is the identity. -/
def f32Exact (d : Nat) : Bool :=
  match narrowF d with
  | some p => p < 2 ^ 32 && widenF p == d
  | none => false

/-! ## Python values, field dictionaries and the heap -/

/-- A Python value that can appear as a field's default, as the argument of
a `set`, or as the result of a `get`: an `int`, a `bool`, a `bytes` string,
a `float` (by its binary64 bit pattern) or a reference to a `Struct`
instance on the heap. -/
inductive PyVal where
  | int (z : Int)
  | bool (b : Bool)
  | bytes (bs : Bytes)
  | float (bits : Nat)
  | struct (sid : Nat)
  deriving DecidableEq, Repr

/-- The declared `"type"` of a field: a format-tag string, a reference to a
`Struct` instance, or some other Python object (neither `str` nor
`Struct`, rejected by validation with a `TypeError`). -/
inductive DType where
  | str (s : String)
  | struct (sid : Nat)
  | other
  deriving DecidableEq, Repr

/-- The `"value"` slot of a field dictionary: packed bytes for primitive
fields, a reference to a `Struct` instance for nested fields. -/
inductive FValue where
  | bytes (bs : Bytes)
  | ref (sid : Nat)
  deriving DecidableEq, Repr

/-- One field's specification dictionary `{"type": …, "default": …,
"help": …, "value": …}`.  `value` is `none` until
`__update_and_validate_store` fills it in. -/
structure FieldDict where
  type : Option DType
  dflt : Option PyVal
  help : Option String
  value : Option FValue
  deriving DecidableEq, Repr

/-- An entry of `_store`: normally a field dictionary; after the
`__setitem__` wholesale replacement of a nested field
(`self._store[key] = value`) it is a bare `Struct` reference. -/
inductive Entry where
  | fdict (d : FieldDict)
  | sref (sid : Nat)
  deriving DecidableEq, Repr

/-- One `Struct` instance: schema name, help string, and the ordered
`_store` mapping field names to entries. -/
structure StructObj where
  structname : String
  helpstring : String
  store : List (String × Entry)
  deriving DecidableEq, Repr

/-- The heap of `Struct` instances; references are indices into `objs`. -/
structure Heap where
  objs : List StructObj
  deriving DecidableEq, Repr

def Heap.size (h : Heap) : Nat := h.objs.length

def heapFind (h : Heap) (sid : Nat) : Option StructObj := h.objs.get? sid

def heapPush (h : Heap) (o : StructObj) : Heap := ⟨h.objs ++ [o]⟩

/-- Replace the object at index `sid` (out-of-range indices are left alone). -/
def setNth {α : Type} : List α → Nat → α → List α
  | [], _, _ => []
  | _ :: r, 0, a => a :: r
  | x :: r, n + 1, a => x :: setNth r n a

def heapSet (h : Heap) (sid : Nat) (o : StructObj) : Heap := ⟨setNth h.objs sid o⟩

/-- First-match lookup in an ordered store, as a Python `dict` lookup. -/
def storeGet : List (String × Entry) → String → Option Entry
  | [], _ => none
  | (k, e) :: r, key => if k == key then some e else storeGet r key

/-- Replace the (first) entry under `key`, keeping order, as assignment to
an existing key of a Python `dict` does. -/
def storeSet : List (String × Entry) → String → Entry → List (String × Entry)
  | [], _, _ => []
  | (k, e) :: r, key, e2 => if k == key then (k, e2) :: r else (k, e) :: storeSet r key e2

/-- Python truthiness of a value (`struct.pack` with the `?` kind applies
`bool()` to its argument; for a `Struct` instance, `bool()` goes through
the overridden `__len__`, i.e. the store's length). -/
def truthy (h : Heap) : PyVal → Bool
  | .int z => z != 0
  | .bool b => b
  | .bytes bs => !bs.isEmpty
  | .float bits => bits % 2 ^ 63 != 0
  | .struct s =>
    match heapFind h s with
    | some o => !o.store.isEmpty
    | none => true

/-! ## Packing and unpacking (`struct.pack` / `struct.unpack`) -/

/-- Modelled from the spec: conversion of a non-negative Python `int` to a
binary64 bit pattern with round-to-nearest-even (CPython's int-to-float
conversion, missing from `src/`); `none` on overflow. -/
def natDoubleBits (n : Nat) : Option Nat :=
  if n == 0 then some 0
  else
    let k := Nat.log2 n
    if k ≤ 52 then some ((k + 1023) * 2 ^ 52 + (n - 2 ^ k) * 2 ^ (52 - k))
    else
      let q := roundNE n (k - 52)
      let q2 := if q == 2 ^ 53 then 2 ^ 52 else q
      let k2 := if q == 2 ^ 53 then k + 1 else k
      if k2 ≥ 1024 then none else some ((k2 + 1023) * 2 ^ 52 + (q2 - 2 ^ 52))

/-- Conversion of a Python `int` to a binary64 bit pattern. -/
def intDoubleBits (z : Int) : Option Nat :=
  if 0 ≤ z then natDoubleBits z.toNat
  else (natDoubleBits (-z).toNat).map (fun b => 2 ^ 63 + b)

/-- Encode an integer value of `w` bytes with the spec's byte order and
signedness (two's complement), range-checking as `struct.pack` does. -/
def packIntK (sp : FmtSpec) (z : Int) (w : Nat) : PRes Bytes :=
  let bits := 8 * w
  let inR : Bool :=
    if isSignedKind sp.kind then
      decide (-(2 ^ (bits - 1) : Int) ≤ z) && decide (z < (2 ^ (bits - 1) : Int))
    else
      decide ((0 : Int) ≤ z) && decide (z < (2 ^ bits : Int))
  if inR then
    let u := (z % (2 ^ bits : Int)).toNat
    let le := natLEb w u
    .ok (if sp.big then le.reverse else le)
  else .exn .structError

/-- Pack a float-kind value given as binary64 bits. -/
def packFloatBits (sp : FmtSpec) (bits : Nat) : PRes Bytes :=
  let le :=
    if sp.kind == 'd' then some (natLEb 8 (bits % 2 ^ 64))
    else (narrowF (bits % 2 ^ 64)).map (natLEb 4)
  match le with
  | none => .exn .structError
  | some l => .ok (if sp.big then l.reverse else l)

/-- Modelled from the spec: `struct.pack(fmt, value)` of the Python
`struct` standard library (missing from `src/`), for single-item formats;
the heap is consulted only for the truthiness of `Struct` arguments to the
`?` kind. -/
def packFmt (h : Heap) (fmt : String) (v : PyVal) : PRes Bytes :=
  match parseFmt fmt.toList with
  | none => .exn .structError
  | some sp =>
    if sp.kind == 's' then
      match v with
      | .bytes bs => .ok (padTrunc bs (sp.count.getD 1))
      | _ => .exn .structError
    else if sp.kind == 'c' then
      if sp.count.getD 1 == 1 then
        match v with
        | .bytes [b] => .ok [b]
        | _ => .exn .structError
      else .exn .structError
    else if sp.count.getD 1 != 1 then .exn .structError
    else
      match itemSize sp.native sp.kind with
      | none => .exn .structError
      | some w =>
        if sp.kind == '?' then .ok [if truthy h v then 1 else 0]
        else if sp.kind == 'f' || sp.kind == 'd' then
          match v with
          | .float bits => packFloatBits sp bits
          | .int z =>
            match intDoubleBits z with
            | some bits => packFloatBits sp bits
            | none => .exn .structError
          | .bool b => packFloatBits sp (if b then widenF (127 * 2 ^ 23) else 0)
          | _ => .exn .structError
        else
          match v with
          | .int z => packIntK sp z w
          | .bool b => packIntK sp (if b then 1 else 0) w
          | _ => .exn .structError

/-- Decode `w` bytes (already little-endian) as the value of kind `k`. -/
def decodeNum (k : Char) (w : Nat) (le : Bytes) : PyVal :=
  let n := lebNat le
  if k == '?' then .bool (n != 0)
  else if k == 'f' then .float (widenF n)
  else if k == 'd' then .float n
  else if isSignedKind k then
    .int (if n < 2 ^ (8 * w - 1) then (n : Int) else (n : Int) - 2 ^ (8 * w))
  else .int n

/-- Modelled from the spec: the numeric branch of `__getitem__`'s
`struct.unpack(fmt, val)[0]` (the `struct` standard library is missing
from `src/`): check the byte length against `calcsize`, then decode the
first item. -/
def unpackNum (fmt : String) (bs : Bytes) : PRes PyVal :=
  match parseFmt fmt.toList with
  | none => .exn .structError
  | some sp =>
    match itemSize sp.native sp.kind with
    | none => .exn .structError
    | some w =>
      if bs.length ≠ sp.count.getD 1 * w then .exn .structError
      else if sp.count.getD 1 == 0 then .exn .indexError
      else .ok (decodeNum sp.kind w
        (if sp.big then (bs.take w).reverse else bs.take w))

/-- `struct.pack` with a format that is itself a runtime Python value, as
reached through the corrupted-store path of `__setitem__`: `str`ings never
occur as stored values, `bytes` formats are accepted by `struct`, anything
else raises a `TypeError`. -/
def packPyFmt (h : Heap) (fmt : PyVal) (v : PyVal) : PRes Bytes :=
  match fmt with
  | .bytes bs => packFmt h (String.mk (bs.map Char.ofNat)) v
  | _ => .exn .typeError

/-- `struct.calcsize` with a runtime Python value as format. -/
def calcsizePyFmt (fmt : PyVal) : PRes Nat :=
  match fmt with
  | .bytes bs => structCalcsizeFmt (String.mk (bs.map Char.ofNat))
  | _ => .exn .typeError

/-! ## The Field Access Protocol (`__getitem__`, `__setitem__`, `__delitem__`) -/

/-- View a stored `"value"` slot as the Python value `__getitem__` returns
when the field's type is not a string. -/
def fvalToPy : FValue → PyVal
  | .bytes bs => .bytes bs
  | .ref s => .struct s

/-- The string branch of `__getitem__`:
`b"".join(struct.unpack(fmt, val)).rstrip(b"\x00")`. -/
def unpackStr (fmt : String) (bs : Bytes) : PRes PyVal :=
  match structCalcsizeFmt fmt with
  | .ok n => if bs.length = n then .ok (.bytes (rstripNulls bs)) else .exn .structError
  | .exn e => .exn e
  | .div => .div

/-- `Struct.__getitem__`: raise `KeyError` on an unknown field; return the
stored value whole when the field's type is not a string (the nested-field
alias); unpack and NUL-strip string fields; unpack numeric fields.  On an
entry that `__setitem__` has replaced by a bare `Struct`, the subscripts
`["type"]` and `["value"]` recurse into that `Struct`'s own
`__getitem__`. -/
def getitemS : Nat → Heap → Nat → String → PRes PyVal
  | 0, _, _, _ => .div
  | f + 1, h, sid, key =>
    match heapFind h sid with
    | none => .div
    | some obj =>
      match storeGet obj.store key with
      | none => .exn .keyError
      | some (.fdict d) =>
        match d.type with
        | none => .exn .keyError
        | some ft =>
          match d.value with
          | none => .exn .keyError
          | some v =>
            match ft with
            | .str fmt =>
              match v with
              | .ref _ => .exn .typeError
              | .bytes bs =>
                if matchStringB fmt then unpackStr fmt bs else unpackNum fmt bs
            | _ => .ok (fvalToPy v)
      | some (.sref c) => do
        let _ ← getitemS f h c "type"
        let v ← getitemS f h c "value"
        pure v

/-- `Struct.__setitem__`: raise `KeyError` on an unknown field; for a
`Struct`-typed field require a `Struct` value and store it — note the code
replaces the whole store entry (`self._store[key] = value`), not the
entry's `"value"` slot; for a string-typed field pack the value into the
entry's `"value"` slot.  On an entry already replaced by a bare `Struct`,
`["type"]` reads and `["value"] = …` writes go through that `Struct`'s own
access protocol. -/
def setitemS : Nat → Heap → Nat → String → PyVal → PRes Heap
  | 0, _, _, _, _ => .div
  | f + 1, h, sid, key, v =>
    match heapFind h sid with
    | none => .div
    | some obj =>
      match storeGet obj.store key with
      | none => .exn .keyError
      | some (.fdict d) =>
        match d.type with
        | none => .exn .keyError
        | some (.struct _) =>
          match v with
          | .struct s2 => .ok (heapSet h sid { obj with store := storeSet obj.store key (.sref s2) })
          | _ => .exn .typeError
        | some (.str fmt) => do
          let bs ← packFmt h fmt v
          pure (heapSet h sid
            { obj with store := storeSet obj.store key (.fdict { d with value := some (.bytes bs) }) })
        | some .other => .exn .typeError
      | some (.sref c) => do
        let fmt ← getitemS f h c "type"
        match fmt with
        | .struct _ =>
          match v with
          | .struct s2 => .ok (heapSet h sid { obj with store := storeSet obj.store key (.sref s2) })
          | _ => .exn .typeError
        | _ => do
          let bs ← packPyFmt h fmt v
          setitemS f h c "value" (.bytes bs)

/-- `Struct.__delitem__`: unconditionally raise `NotImplementedError`. -/
def delitemS (_h : Heap) (_sid : Nat) (_key : String) : PRes Heap :=
  .exn .notImplemented

/-! ## The Serializer (`calcsize`, `pickle`) -/

/-- The loop body of `Struct.calcsize` over the store entries; `cbSize` is
the recursive call into a nested `Struct`, `cbGet` the `__getitem__` of a
child reached through a corrupted entry. -/
def calcEntries (cbSize : Nat → PRes Nat) (cbGet : Nat → String → PRes PyVal) :
    List (String × Entry) → PRes Nat
  | [] => .ok 0
  | (_, e) :: rest => do
    let n ←
      match e with
      | .fdict d =>
        match d.type with
        | none => .exn .keyError
        | some (.struct s) => cbSize s
        | some (.str fmt) => structCalcsizeFmt fmt
        | some .other => .exn .typeError
      | .sref c => do
        let ft ← cbGet c "type"
        match ft with
        | .struct s => cbSize s
        | _ => calcsizePyFmt ft
    let m ← calcEntries cbSize cbGet rest
    pure (n + m)

/-- `Struct.calcsize`: sum each field's width, recursing into nested
`Struct`s through the field's `"type"`. -/
def calcsizeS : Nat → Heap → Nat → PRes Nat
  | 0, _, _ => .div
  | f + 1, h, sid =>
    match heapFind h sid with
    | none => .div
    | some obj => calcEntries (calcsizeS f h) (getitemS f h) obj.store

/-- The loop body of `Struct.pickle` over the store entries: concatenate
each field's `"value"`, recursing into nested `Struct` values. -/
def pickleEntries (cbPick : Nat → PRes Bytes) (cbGet : Nat → String → PRes PyVal) :
    List (String × Entry) → PRes Bytes
  | [] => .ok []
  | (_, e) :: rest => do
    let b ←
      match e with
      | .fdict d =>
        match d.value with
        | none => .exn .keyError
        | some (.bytes bs) => pure bs
        | some (.ref s) => cbPick s
      | .sref c => do
        let fv ← cbGet c "value"
        match fv with
        | .struct s => cbPick s
        | .bytes bs => pure bs
        | _ => .exn .typeError
    let rb ← pickleEntries cbPick cbGet rest
    pure (b ++ rb)

/-- One entry's contribution to `pickle` (factored from `pickleEntries`
for reasoning about the serialization of a decomposed store). -/
def pickleHead (cbPick : Nat → PRes Bytes) (cbGet : Nat → String → PRes PyVal) :
    Entry → PRes Bytes
  | .fdict d =>
    match d.value with
    | none => .exn .keyError
    | some (.bytes bs) => pure bs
    | some (.ref s) => cbPick s
  | .sref c => do
    let fv ← cbGet c "value"
    match fv with
    | .struct s => cbPick s
    | .bytes bs => pure bs
    | _ => .exn .typeError

/-- `Struct.pickle`: concatenate each field's current packed bytes in
declaration order, recursing into nested `Struct` values. -/
def pickleS : Nat → Heap → Nat → PRes Bytes
  | 0, _, _ => .div
  | f + 1, h, sid =>
    match heapFind h sid with
    | none => .div
    | some obj => pickleEntries (pickleS f h) (getitemS f h) obj.store

/-! ## Well-formed stores

`wfS` captures the store shape that construction is meant to establish:
every entry is a field dictionary whose `"value"` is packed bytes of
exactly the format tag's width, or a nested field whose `"type"` and
`"value"` are the same live child `Struct`, recursively well-formed. -/

/-- Well-formedness of the entries of one store. -/
def wfEntries (cbWf : Nat → Bool) : List (String × Entry) → Bool
  | [] => true
  | (_, e) :: rest =>
    (match e with
      | .fdict d =>
        match d.type, d.value with
        | some (.str fmt), some (.bytes bs) =>
          (match structCalcsizeFmt fmt with
            | .ok n => bs.length == n
            | _ => false)
        | some (.struct t), some (.ref vt) => t == vt && cbWf t
        | _, _ => false
      | .sref _ => false) && wfEntries cbWf rest

/-- Well-formedness of the `Struct` at `sid` (to recursion depth `f`). -/
def wfS : Nat → Heap → Nat → Bool
  | 0, _, _ => false
  | f + 1, h, sid =>
    match heapFind h sid with
    | none => false
    | some obj => wfEntries (wfS f h) obj.store

/-! ## `copy.deepcopy`

Construction deep-copies the declaration (`copy.deepcopy(fields)`) and the
copy constructor deep-copies the original's `_store`.  Python's `deepcopy`
keeps a memo so that a shared object — in particular the one `Struct`
instance stored under both `"type"` and `"value"` of a nested field — is
copied once and stays shared inside the copy. -/

/-- The deepcopy memo: pairs of (original id, copy id). -/
abbrev Memo := List (Nat × Nat)

def memoFind : Memo → Nat → Option Nat
  | [], _ => none
  | (a, b) :: r, sid => if a == sid then some b else memoFind r sid

/-- Deep-copy the `Struct` reference inside a `DType`, through `cb`. -/
def dcDType (cb : Heap → Memo → Nat → Option (Heap × Memo × Nat)) (h : Heap) (m : Memo) :
    DType → Option (Heap × Memo × DType)
  | .struct s => (cb h m s).map (fun r => (r.1, r.2.1, .struct r.2.2))
  | t => some (h, m, t)

/-- Deep-copy a Python value (only `Struct` references need work). -/
def dcPyVal (cb : Heap → Memo → Nat → Option (Heap × Memo × Nat)) (h : Heap) (m : Memo) :
    PyVal → Option (Heap × Memo × PyVal)
  | .struct s => (cb h m s).map (fun r => (r.1, r.2.1, .struct r.2.2))
  | v => some (h, m, v)

/-- Deep-copy a `"value"` slot. -/
def dcFValue (cb : Heap → Memo → Nat → Option (Heap × Memo × Nat)) (h : Heap) (m : Memo) :
    FValue → Option (Heap × Memo × FValue)
  | .ref s => (cb h m s).map (fun r => (r.1, r.2.1, .ref r.2.2))
  | v => some (h, m, v)

/-- Deep-copy an optional `"type"` slot. -/
def dcOptDType (cb : Heap → Memo → Nat → Option (Heap × Memo × Nat)) (h : Heap) (m : Memo) :
    Option DType → Option (Heap × Memo × Option DType)
  | none => some (h, m, none)
  | some t => (dcDType cb h m t).map (fun r => (r.1, r.2.1, some r.2.2))

/-- Deep-copy an optional `"default"` slot. -/
def dcOptPyVal (cb : Heap → Memo → Nat → Option (Heap × Memo × Nat)) (h : Heap) (m : Memo) :
    Option PyVal → Option (Heap × Memo × Option PyVal)
  | none => some (h, m, none)
  | some v => (dcPyVal cb h m v).map (fun r => (r.1, r.2.1, some r.2.2))

/-- Deep-copy an optional `"value"` slot. -/
def dcOptFValue (cb : Heap → Memo → Nat → Option (Heap × Memo × Nat)) (h : Heap) (m : Memo) :
    Option FValue → Option (Heap × Memo × Option FValue)
  | none => some (h, m, none)
  | some v => (dcFValue cb h m v).map (fun r => (r.1, r.2.1, some r.2.2))

/-- Deep-copy one store entry, copying the `"type"`, `"default"` and
`"value"` slots in dictionary order. -/
def dcEntry (cb : Heap → Memo → Nat → Option (Heap × Memo × Nat)) (h : Heap) (m : Memo) :
    Entry → Option (Heap × Memo × Entry)
  | .fdict d =>
    match dcOptDType cb h m d.type with
    | none => none
    | some (h1, m1, t2) =>
      match dcOptPyVal cb h1 m1 d.dflt with
      | none => none
      | some (h2, m2, df2) =>
        match dcOptFValue cb h2 m2 d.value with
        | none => none
        | some (h3, m3, v2) =>
          some (h3, m3, .fdict { type := t2, dflt := df2, help := d.help, value := v2 })
  | .sref s => (cb h m s).map (fun r => (r.1, r.2.1, .sref r.2.2))

/-- Deep-copy a whole store, in order. -/
def dcStore (cb : Heap → Memo → Nat → Option (Heap × Memo × Nat)) (h : Heap) (m : Memo) :
    List (String × Entry) → Option (Heap × Memo × List (String × Entry))
  | [] => some (h, m, [])
  | (k, e) :: rest =>
    match dcEntry cb h m e with
    | none => none
    | some (h1, m1, e2) =>
      match dcStore cb h1 m1 rest with
      | none => none
      | some (h2, m2, r2) => some (h2, m2, (k, e2) :: r2)

/-- Deep-copy the `Struct` instance at `sid`: return the memoized copy if
one exists, otherwise allocate the copy first (as Python's `deepcopy` memo
does), copy the store, then fill the copy in. -/
def dcStruct : Nat → Heap → Memo → Nat → Option (Heap × Memo × Nat)
  | 0, _, _, _ => none
  | f + 1, h, m, sid =>
    match memoFind m sid with
    | some nid => some (h, m, nid)
    | none =>
      match heapFind h sid with
      | none => none
      | some obj =>
        let nid := h.size
        let h1 := heapPush h { structname := obj.structname, helpstring := obj.helpstring, store := [] }
        let m1 := (sid, nid) :: m
        match dcStore (dcStruct f) h1 m1 obj.store with
        | none => none
        | some (h2, m2, st2) =>
          some (heapSet h2 nid
            { structname := obj.structname, helpstring := obj.helpstring, store := st2 }, m2, nid)

/-! ## Construction (`__init__`, `__update_and_validate_store`,
`__update_helpstring`, `__copy_init`) -/

/-- `Struct.__update_and_validate_store`: validate fields in order; a
missing `"type"` is a `SyntaxError`, a type that is neither `str` nor
`Struct` a `TypeError`, a string type matching neither regex a
`SyntaxError`.  A primitive field packs its default (canonical zero /
empty bytes when absent) into `"value"`.  A nested field stores the child
`Struct` as `"value"` and then RETURNS, leaving all later fields
unprocessed (the code's comment says "continue" but the statement is
`return`). -/
def validateStore (h : Heap) : List (String × Entry) → PRes (List (String × Entry))
  | [] => .ok []
  | (_, .sref _) :: _ => .exn .syntaxError
  | (k, .fdict d) :: rest =>
    match d.type with
    | none => .exn .syntaxError
    | some .other => .exn .typeError
    | some (.str fmt) =>
      if matchNumberB fmt || matchStringB fmt then do
        let fv :=
          match d.dflt with
          | some dv => dv
          | none => if matchNumberB fmt then .int 0 else .bytes []
        let bs ← packFmt h fmt fv
        let rest2 ← validateStore h rest
        pure ((k, .fdict { d with value := some (.bytes bs) }) :: rest2)
      else .exn .syntaxError
    | some (.struct t) =>
      .ok ((k, .fdict { d with value := some (.ref t) }) :: rest)

/-- Pad a field name to the help column width, as `f"{field:<{width}}"`. -/
def padRight (s : String) (w : Nat) : String :=
  s ++ String.mk (List.replicate (w - s.length) ' ')

/-- Split a character list at newline characters (like
`"…".split("\n")`: `n` newlines give `n + 1` chunks). -/
def splitNl : List Char → List (List Char)
  | [] => [[]]
  | c :: r =>
    let rs := splitNl r
    if c = '\n' then [] :: rs
    else
      match rs with
      | [] => [[c]]
      | x :: xs => (c :: x) :: xs

/-- Join chunks with newline characters (inverse of `splitNl`). -/
def joinNl : List (List Char) → List Char
  | [] => []
  | [x] => x
  | x :: xs => x ++ '\n' :: joinNl xs

/-- `textwrap.indent(text, "    ")`: prefix every line that contains a
non-whitespace character with four spaces. -/
def indent4 (t : String) : String :=
  String.mk (joinNl ((splitNl t.toList).map
    (fun line =>
      if line.any (fun c => !c.isWhitespace) then ' ' :: ' ' :: ' ' :: ' ' :: line else line)))

/-- One help line: `f"  {field:<{helpwidth}} -- {fhelp}\n"` with the
`dict.get("help", "[No details]")` fallback. -/
def helpLine (w : Nat) (k : String) (hp : Option String) : String :=
  "  " ++ padRight k w ++ " -- " ++ hp.getD "[No details]" ++ "\n"

/-- The widest field name, `max(len(field) for field in self._store)`;
raises `ValueError` on an empty store as Python's `max()` does. -/
def maxNameLen (store : List (String × Entry)) : PRes Nat :=
  match store with
  | [] => .exn .valueError
  | (k, _) :: rest => .ok (rest.foldl (fun acc p => max acc p.1.length) k.length)

/-- The per-field part of `Struct.__update_helpstring`: a line per field,
with a nested `Struct`'s help string appended indented.  Entries that are
bare `Struct`s (after the `__setitem__` corruption) go through `dict.get`
(the bare `Struct`'s real dict is empty, so the placeholder is used) and
`obj["type"]`, which is the child's own `__getitem__`. -/
def mkHelpEntries (f : Nat) (h : Heap) (w : Nat) : List (String × Entry) → PRes String
  | [] => .ok ""
  | (k, e) :: rest => do
    let part ←
      match e with
      | .fdict d =>
        let line := helpLine w k d.help
        match d.type with
        | none => .exn .keyError
        | some (.struct s) =>
          match heapFind h s with
          | none => .div
          | some c => .ok (line ++ indent4 c.helpstring)
        | some _ => (.ok line : PRes String)
      | .sref c => do
        let line := helpLine w k none
        let tv ← getitemS f h c "type"
        match tv with
        | .struct s =>
          match heapFind h s with
          | none => .div
          | some co => .ok (line ++ indent4 co.helpstring)
        | _ => (.ok line : PRes String)
    let r ← mkHelpEntries f h w rest
    pure (part ++ r)

/-- `Struct.__init__` from a declaration mapping: deep-copy the
declaration into the store, validate it, build the help string, and
allocate the new instance.  `structname` defaults to the class name
`"Struct"`. -/
def structInit (f : Nat) (h : Heap) (decl : List (String × Entry)) (snameOpt : Option String) :
    PRes (Heap × Nat) :=
  let name := snameOpt.getD "Struct"
  match dcStore (dcStruct f) h [] decl with
  | none => .div
  | some (h1, _, store0) => do
    let store1 ← validateStore h1 store0
    let w ← maxNameLen store1
    let body ← mkHelpEntries f h1 w store1
    let hs := name ++ " details\n" ++ body
    pure (heapPush h1 { structname := name, helpstring := hs, store := store1 }, h1.size)

/-- Whether `pat` is a prefix of `l`. -/
def isPreOf : List Char → List Char → Bool
  | [], _ => true
  | _ :: _, [] => false
  | p :: ps, c :: cs => p == c && isPreOf ps cs

/-- Replace non-overlapping occurrences of `pat` by `rep`, left to right
(`str.replace`; a nonempty `pat` is assumed, as schema names are). -/
def replChars (pat rep : List Char) : Nat → List Char → List Char
  | 0, l => l
  | _ + 1, [] => []
  | f + 1, c :: r =>
    if !pat.isEmpty && isPreOf pat (c :: r) then
      rep ++ replChars pat rep f ((c :: r).drop pat.length)
    else c :: replChars pat rep f r

/-- `str.replace` on strings. -/
def strReplace (s pat rep : String) : String :=
  String.mk (replChars pat.toList rep.toList s.toList.length s.toList)

/-- `Struct.__copy_init`: deep-copy the original's `_store`, replace the
original's name by the new one throughout the help string, and allocate
the new instance.  (`Struct(other)` with no `structname` also renames to
the class name `"Struct"`, because the default is applied before the copy
branch.) -/
def structCopyInit (f : Nat) (h : Heap) (orig : Nat) (snameOpt : Option String) :
    PRes (Heap × Nat) :=
  let name := snameOpt.getD "Struct"
  match heapFind h orig with
  | none => .div
  | some obj =>
    match dcStore (dcStruct f) h [] obj.store with
    | none => .div
    | some (h1, _, store2) =>
      .ok (heapPush h1
        { structname := name,
          helpstring := strReplace obj.helpstring obj.structname name,
          store := store2 }, h1.size)

/-! ## References and closed heap regions

`entryRefs` collects the `Struct` references a store entry can lead the
access protocol, the serializer or the size computation to; a set `S` of
heap ids is closed when every id in `S` is live and all references of its
store stay in `S`.  These notions support the isolation and aliasing
theorems. -/

/-- `Struct` references inside a `"type"` slot. -/
def dtypeRefs : Option DType → List Nat
  | some (.struct s) => [s]
  | _ => []

/-- `Struct` references inside a `"value"` slot. -/
def fvalRefs : Option FValue → List Nat
  | some (.ref s) => [s]
  | _ => []

/-- All `Struct` references of a store entry. -/
def entryRefs : Entry → List Nat
  | .fdict d => dtypeRefs d.type ++ fvalRefs d.value
  | .sref s => [s]

/-- `S` is a closed region of `h`: every id in `S` is live and its store's
references stay in `S`. -/
def closedU (h : Heap) (S : List Nat) : Bool :=
  S.all fun s =>
    match heapFind h s with
    | some obj => (obj.store.map Prod.snd).all fun e => (entryRefs e).all (S.contains ·)
    | none => false

/-- Two heaps agree on every id of `S`. -/
def agreeOn (h1 h2 : Heap) (S : List Nat) : Prop :=
  ∀ s ∈ S, heapFind h1 s = heapFind h2 s

/-- The ids of the half-open interval `[a, b)`, the region freshly
allocated between two heap snapshots. -/
def regionL (a b : Nat) : List Nat :=
  (List.range (b - a)).map (fun i => i + a)

/-- All store references of cells at or above `N` lie in `[N, h.size)`
(invariant of the freshly copied region during a deep copy). -/
def RefsFrom (N : Nat) (h : Heap) : Prop :=
  ∀ i obj, N ≤ i → heapFind h i = some obj →
    ∀ e ∈ obj.store.map Prod.snd, ∀ r ∈ entryRefs e, N ≤ r ∧ r < h.size

/-- All copy ids recorded in a deepcopy memo lie in `[N, h.size)`. -/
def MemoR (N : Nat) (h : Heap) (m : Memo) : Prop :=
  ∀ p ∈ m, N ≤ p.2 ∧ p.2 < h.size

/-- Postcondition of one deepcopy step: the heap only grows, old cells are
untouched, the fresh-region invariants persist, and the returned id is
fresh. -/
def DCPost (N : Nat) (h : Heap) (h2 : Heap) (m2 : Memo) (nid : Nat) : Prop :=
  h.size ≤ h2.size ∧ (∀ i, i < h.size → heapFind h2 i = heapFind h i) ∧
  RefsFrom N h2 ∧ MemoR N h2 m2 ∧ N ≤ nid ∧ nid < h2.size

/-- The deepcopy callback satisfies the step postcondition whenever its
preconditions hold. -/
def CBSpec (N : Nat) (cb : Heap → Memo → Nat → Option (Heap × Memo × Nat)) : Prop :=
  ∀ h m sid h2 m2 nid, cb h m sid = some (h2, m2, nid) →
    N ≤ h.size → RefsFrom N h → MemoR N h m → DCPost N h h2 m2 nid

/-! ## In-range values and expected `get` results (for the set/get
round-trip law) -/

/-- A value is in range for a format tag: integers within the kind's
two's-complement or unsigned range, booleans for the `?` kind, byte
strings no longer than the declared width for the `s` kind and of length
one for the `c` kind, and floats exactly representable in the kind's
precision. -/
def inRangeB (fmt : String) (v : PyVal) : Bool :=
  match parseFmt fmt.toList with
  | none => false
  | some sp =>
    if sp.kind == 's' then
      match v with
      | .bytes bs => decide (bs.length ≤ sp.count.getD 1)
      | _ => false
    else if sp.kind == 'c' then
      sp.count.getD 1 == 1 &&
        (match v with
          | .bytes bs => bs.length == 1
          | _ => false)
    else if sp.count.getD 1 != 1 then false
    else
      match itemSize sp.native sp.kind with
      | none => false
      | some w =>
        if sp.kind == '?' then
          match v with
          | .bool _ => true
          | _ => false
        else if sp.kind == 'f' then
          match v with
          | .float bits => decide (bits < 2 ^ 64) && f32Exact bits
          | _ => false
        else if sp.kind == 'd' then
          match v with
          | .float bits => decide (bits < 2 ^ 64)
          | _ => false
        else
          match v with
          | .int z =>
            if isSignedKind sp.kind then
              decide (-(2 ^ (8 * w - 1) : Int) ≤ z) && decide (z < (2 ^ (8 * w - 1) : Int))
            else
              decide ((0 : Int) ≤ z) && decide (z < (2 ^ (8 * w) : Int))
          | _ => false

/-- The value `get` is specified to return after `set name v`: `v` itself
for numeric kinds, `v` with trailing NUL bytes stripped for byte-string
kinds. -/
def expectedGet (fmt : String) (v : PyVal) : PyVal :=
  if matchStringB fmt then
    match v with
    | .bytes bs => .bytes (rstripNulls bs)
    | x => x
  else v

/-! ## Concrete example records (the spec's §8 scenarios and the failing
inputs of the code bugs) -/

/-- Build a primitive field declaration entry. -/
def primF (fmt : String) (dv : Option PyVal) (hp : Option String) : Entry :=
  .fdict { type := some (.str fmt), dflt := dv, help := hp, value := none }

/-- Build a nested field declaration entry. -/
def nestF (sid : Nat) (hp : Option String) : Entry :=
  .fdict { type := some (.struct sid), dflt := none, help := hp, value := none }

def emptyHeap : Heap := ⟨[]⟩

/-- First component of a successful construction. -/
def resHeap (r : PRes (Heap × Nat)) : Heap := (r.getD (emptyHeap, 0)).1

/-- Second component of a successful construction. -/
def resSid (r : PRes (Heap × Nat)) : Nat := (r.getD (emptyHeap, 0)).2

/-- The spec's `{foo: "<B" default 1, bar: "<H" default 2, baz: "<L" default 3}`. -/
def declMixed : List (String × Entry) :=
  [("foo", primF "<B" (some (.int 1)) (some "mb")),
   ("bar", primF "<H" (some (.int 2)) (some "ms")),
   ("baz", primF "<L" (some (.int 3)) (some "ml"))]

def exMixed : PRes (Heap × Nat) := structInit 9 emptyHeap declMixed none

/-- The spec's `{foo: type "<I", default 1}`. -/
def declInt : List (String × Entry) := [("foo", primF "<I" (some (.int 1)) (some "i"))]

def exInt : PRes (Heap × Nat) := structInit 9 emptyHeap declInt none

/-- The spec's `{foo: type "8s", default b"string"}`. -/
def declStr : List (String × Entry) :=
  [("foo", primF "8s" (some (.bytes [115, 116, 114, 105, 110, 103])) (some "s"))]

def exStr : PRes (Heap × Nat) := structInit 9 emptyHeap declStr none

/-- `b"much longer string"`. -/
def longB : Bytes :=
  [109, 117, 99, 104, 32, 108, 111, 110, 103, 101, 114, 32, 115, 116, 114, 105, 110, 103]

/-- The heap after `set(foo, b"much longer string")` on the `"8s"` record. -/
def exStrSet : Heap :=
  (setitemS 9 (resHeap exStr) (resSid exStr) "foo" (.bytes longB)).getD emptyHeap

/-- A child record `{nested: "8s" default b"nested"}`. -/
def exChild : PRes (Heap × Nat) :=
  structInit 9 emptyHeap [("nested", primF "8s" (some (.bytes [110, 101, 115, 116, 101, 100])) (some "n"))] none

/-- Failing input of the early-`return` bug: a nested field followed by a
primitive field `{a: <nested record>, b: "<B" default 1}`. -/
def declAfterNested : List (String × Entry) :=
  [("a", nestF (resSid exChild) (some "ne")), ("b", primF "<B" (some (.int 1)) (some "bb"))]

def exAfterNested : PRes (Heap × Nat) := structInit 9 (resHeap exChild) declAfterNested none

/-- A well-formed parent `{b: "<B" default 1, a: <nested record>}` (nested
field last, so the early-`return` bug is not triggered). -/
def declParent : List (String × Entry) :=
  [("b", primF "<B" (some (.int 1)) (some "bb")), ("a", nestF (resSid exChild) (some "ne"))]

def exParent : PRes (Heap × Nat) := structInit 9 (resHeap exChild) declParent none

/-- A replacement record `{y: "<B" default 5}`, allocated after the parent. -/
def exRepl : PRes (Heap × Nat) :=
  structInit 9 (resHeap exParent) [("y", primF "<B" (some (.int 5)) (some "y"))] none

/-- The heap after the wholesale nested `set(a, <replacement record>)`. -/
def exC4 : PRes Heap :=
  setitemS 9 (resHeap exRepl) (resSid exParent) "a" (.struct (resSid exRepl))

/-- The copy of the parent record (`Struct(parent, "Copy")`). -/
def exCopy : PRes (Heap × Nat) := structCopyInit 9 (resHeap exParent) (resSid exParent) (some "Copy")

/-- The raw `"value"` slot stored under `key` (observer used to exhibit
store states; `none` when the id, the key, or a field dictionary is not
there). -/
def storedValue (h : Heap) (sid : Nat) (key : String) : Option (Option FValue) :=
  match heapFind h sid with
  | some obj =>
    match storeGet obj.store key with
    | some (.fdict d) => some d.value
    | _ => none
  | none => none

/-- The heap after the wholesale nested set, extracted. -/
def exC4h : Heap := exC4.getD emptyHeap

/-- The heap after mutating the copy (`copy["b"] = 77`). -/
def exCopyMut : Heap :=
  (setitemS 9 (resHeap exCopy) (resSid exCopy) "b" (.int 77)).getD emptyHeap

/-- The heap after mutating the original (`parent["b"] = 42`) post-copy. -/
def exOrigMut : Heap :=
  (setitemS 9 (resHeap exCopy) (resSid exParent) "b" (.int 42)).getD emptyHeap

/-- The heap after mutating the nested child through the alias returned by
`parent["a"]` (`parent["a"]["nested"] = b"baz"`). -/
def exAliasMut : Heap :=
  (setitemS 9 (resHeap exParent) 1 "nested" (.bytes [98, 97, 122])).getD emptyHeap

/-- The parent record object on the heap (id 2). -/
def exParentObj : StructObj := (heapFind (resHeap exParent) 2).getD ⟨"", "", []⟩

/-- The parent's store up to (excluding) its nested field `a`. -/
def exParentPre : List (String × Entry) := exParentObj.store.take 1

/-- The field dictionary of the parent's nested field `a`. -/
def exParentD : FieldDict :=
  match storeGet exParentObj.store "a" with
  | some (.fdict d) => d
  | _ => ⟨none, none, none, none⟩

/-- The field dictionary of the `{foo: type "<I", default 1}` record after
construction. -/
def exIntFd : FieldDict :=
  { type := some (.str "<I"), dflt := some (.int 1),
    help := some "i", value := some (.bytes [1, 0, 0, 0]) }

/-- The single object of the `{foo: type "<I", default 1}` record. -/
def exIntObj : StructObj :=
  { structname := "Struct", helpstring := "Struct details\n  foo -- i\n",
    store := [("foo", Entry.fdict exIntFd)] }

/-! # Theorems -/

@[simp] theorem PRes.bind_ok {α β : Type} (a : α) (f : α → PRes β) :
    PRes.bind (.ok a) f = f a := rfl

@[simp] theorem PRes.bind_exn {α β : Type} (e : Err) (f : α → PRes β) :
    PRes.bind (.exn e) f = .exn e := rfl

@[simp] theorem PRes.bind_div {α β : Type} (f : α → PRes β) :
    PRes.bind .div f = .div := rfl

@[simp] theorem PRes.bindM_ok {α β : Type} (a : α) (f : α → PRes β) :
    (PRes.ok a >>= f) = f a := rfl

@[simp] theorem PRes.bindM_exn {α β : Type} (e : Err) (f : α → PRes β) :
    ((PRes.exn e : PRes α) >>= f) = PRes.exn e := rfl

@[simp] theorem PRes.bindM_div {α β : Type} (f : α → PRes β) :
    ((PRes.div : PRes α) >>= f) = PRes.div := rfl

/-- C6: `serialize()` concatenates each field's packed bytes in
declaration order: the schema `{foo: "<B" default 1, bar: "<H" default 2,
baz: "<L" default 3}` constructs and serializes to
`b"\x01\x02\x00\x03\x00\x00\x00"` with `size() == 7`, and the schema
`{foo: type "<I", default 1}` serializes to `b"\x01\x00\x00\x00"` with
`size() == 4`. -/
theorem c6_serialize_concat_examples :
    exMixed = .ok (resHeap exMixed, 0) ∧
    pickleS 9 (resHeap exMixed) 0 = .ok [1, 2, 0, 3, 0, 0, 0] ∧
    calcsizeS 9 (resHeap exMixed) 0 = .ok 7 ∧
    exInt = .ok (resHeap exInt, 0) ∧
    pickleS 9 (resHeap exInt) 0 = .ok [1, 0, 0, 0] ∧
    calcsizeS 9 (resHeap exInt) 0 = .ok 4 := by decide

/-- C9: deleting any field of any record, at any time, fails with
`NotImplementedError` (the immutability error) and, the operation
returning no heap, leaves every record unchanged; this holds for every
heap, id and key, hence also for zero-field stores. -/
theorem c9_delete_always_rejected (h : Heap) (sid : Nat) (key : String) :
    delitemS h sid key = .exn .notImplemented := rfl

/-- C10: constructing a record from an empty declaration always raises
(`max()` over the empty field set raises `ValueError` while the help text
is built) and never returns a record. -/
theorem c10_empty_declaration_raises (f : Nat) (h : Heap) (nm : Option String) :
    structInit f h [] nm = .exn .valueError := rfl

/-- C3 shows a code bug: for the declaration `{a: <nested record>,
b: "<B" default 1}` construction succeeds, but the loop of
`__update_and_validate_store` hits `return` (its comment says "continue")
on the nested field `a`, so the later primitive field `b` is left with no
packed `"value"` at all — and `pickle()` subsequently raises `KeyError` —
contradicting the claim that every primitive field, including each one
declared after a nested field, holds a packed value of its tag's width. -/
theorem c3_field_after_nested_left_unpacked :
    exAfterNested = .ok (resHeap exAfterNested, 2) ∧
    storedValue (resHeap exAfterNested) 2 "b" = some none ∧
    pickleS 9 (resHeap exAfterNested) 2 = .exn .keyError := by decide

/-- C1 shows the same code bug's effect on the serializer postcondition:
for the record constructed from `{a: <nested record>, b: "<B" default 1}`,
`calcsize()` returns 9 but `pickle()` raises `KeyError`, so
`len(serialize()) == size()` does not hold for this record. -/
theorem c1_size_serialize_postcondition_fails :
    calcsizeS 9 (resHeap exAfterNested) 2 = .ok 9 ∧
    pickleS 9 (resHeap exAfterNested) 2 = .exn .keyError := by decide

/-- C4 shows a code bug: setting a nested field to a record succeeds, but
`__setitem__` replaces the whole store entry (`self._store[key] = value`)
instead of the entry's `"value"` slot, so the subsequent `get`,
`serialize` and `size` all raise `KeyError` instead of returning the new
child and its bytes; the `TypeMismatch` half of the claim (set with a
non-record value fails with `TypeError`) does hold. -/
theorem c4_nested_set_corrupts_entry :
    exC4 = .ok exC4h ∧
    getitemS 9 exC4h (resSid exParent) "a" = .exn .keyError ∧
    pickleS 9 exC4h (resSid exParent) = .exn .keyError ∧
    calcsizeS 9 exC4h (resSid exParent) = .exn .keyError ∧
    setitemS 9 (resHeap exRepl) (resSid exParent) "a" (.int 7) = .exn .typeError := by decide

/-- C7: for every byte-string field of declared width `w`, `set` stores
the value right-padded with NULs to exactly `w` bytes when shorter and
truncated to exactly the first `w` bytes when longer (never an error);
concretely, `{foo: type "8s", default b"string"}` serializes to
`b"string\x00\x00"`, and after `set(foo, b"much longer string")`,
`get(foo) == b"much lon"` and `serialize() == b"much lon"`. -/
theorem c7_bytes_pad_truncate
    (f : Nat) (h : Heap) (sid : Nat) (key : String) (obj : StructObj) (d : FieldDict)
    (fmt : String) (sp : FmtSpec) (v : Bytes)
    (hfind : heapFind h sid = some obj)
    (hget : storeGet obj.store key = some (.fdict d))
    (htype : d.type = some (.str fmt))
    (hparse : parseFmt fmt.toList = some sp)
    (hks : sp.kind = 's') :
    setitemS (f + 1) h sid key (.bytes v) =
      .ok (heapSet h sid { obj with store := (storeSet obj.store key
        (.fdict { d with value := some (.bytes (padTrunc v (sp.count.getD 1))) })) }) ∧
    (v.length ≤ sp.count.getD 1 →
      padTrunc v (sp.count.getD 1) = v ++ List.replicate (sp.count.getD 1 - v.length) 0) ∧
    (sp.count.getD 1 < v.length → padTrunc v (sp.count.getD 1) = v.take (sp.count.getD 1)) ∧
    pickleS 9 (resHeap exStr) (resSid exStr) = .ok [115, 116, 114, 105, 110, 103, 0, 0] ∧
    getitemS 9 exStrSet (resSid exStr) "foo" = .ok (.bytes [109, 117, 99, 104, 32, 108, 111, 110]) ∧
    pickleS 9 exStrSet (resSid exStr) = .ok [109, 117, 99, 104, 32, 108, 111, 110] := by
  refine ⟨?_, ?_, ?_, by decide, by decide, by decide⟩
  · simp only [setitemS, hfind, hget, htype, packFmt]
    rw [hparse]
    simp only [hks]
    rfl
  · intro hle
    simp [padTrunc, hle]
  · intro hlt
    simp [padTrunc, Nat.not_le_of_lt hlt]

/-- C7 witness: the general part applied to the `"8s"` record and
`b"much longer string"`. -/
theorem c7_bytes_pad_truncate_witness :
    setitemS 9 (resHeap exStr) (resSid exStr) "foo" (.bytes longB) = .ok exStrSet := by
  have h := c7_bytes_pad_truncate 8 (resHeap exStr) (resSid exStr) "foo"
    ((resHeap exStr).objs.getD 0 ⟨"", "", []⟩)
    { type := some (.str "8s"), dflt := some (.bytes [115, 116, 114, 105, 110, 103]),
      help := some "s", value := some (.bytes [115, 116, 114, 105, 110, 103, 0, 0]) }
    "8s" ⟨true, false, some 8, 's'⟩ longB
    (by decide) (by decide) (by decide) (by decide) (by decide)
  exact h.1.trans (by decide)

/-! ## Helper lemmas: byte lists and stores -/

theorem natLEb_length (w n : Nat) : (natLEb w n).length = w := by
  induction w generalizing n with
  | zero => rfl
  | succ w ih => simp [natLEb, ih]

theorem pow256 (w : Nat) : (256 : Nat) ^ w = 2 ^ (8 * w) := by
  rw [show (256 : Nat) = 2 ^ 8 from rfl, ← pow_mul]

theorem lebNat_natLEb (w n : Nat) : lebNat (natLEb w n) = n % 256 ^ w := by
  induction w generalizing n with
  | zero => simp [natLEb, lebNat, Nat.mod_one]
  | succ w ih =>
    simp only [natLEb, lebNat, ih]
    rw [pow_succ', Nat.mod_mul]

theorem dropWhile_zero_replicate (k : Nat) (l : Bytes) :
    (List.replicate k 0 ++ l).dropWhile (fun b => b == 0) = l.dropWhile (fun b => b == 0) := by
  induction k with
  | zero => rfl
  | succ k ih => simp [List.replicate_succ, List.dropWhile, ih]

theorem rstripNulls_append_zeros (v : Bytes) (k : Nat) :
    rstripNulls (v ++ List.replicate k 0) = rstripNulls v := by
  simp only [rstripNulls, List.reverse_append, List.reverse_replicate]
  rw [dropWhile_zero_replicate]

theorem storeGet_storeSet (st : List (String × Entry)) (k : String) (e0 e : Entry)
    (hg : storeGet st k = some e0) : storeGet (storeSet st k e) k = some e := by
  induction st with
  | nil => exact Option.noConfusion hg
  | cons p rest ih =>
    obtain ⟨pk, pe⟩ := p
    by_cases hk : pk == k
    · simp [storeGet, storeSet, hk]
    · simp [storeGet, storeSet, hk] at hg ⊢
      exact ih hg

/-! ## Helper lemmas: grammar -/

theorem digitsThenStrKind_eq (cs : List Char) :
    digitsThenStrKind cs =
      (match cs.dropWhile Char.isDigit with
        | [k] => k == 'c' || k == 's'
        | _ => false) := by
  induction cs with
  | nil => rfl
  | cons c rest ih =>
    cases rest with
    | nil =>
      by_cases hd : c.isDigit
      · have hc : (c == 'c') = false := by
          cases hcc : c == 'c'
          · rfl
          · exact absurd hd (by rw [eq_of_beq hcc]; decide)
        have hs : (c == 's') = false := by
          cases hcs : c == 's'
          · rfl
          · exact absurd hd (by rw [eq_of_beq hcs]; decide)
        simp [digitsThenStrKind, List.dropWhile, hd, hc, hs]
      · simp [digitsThenStrKind, List.dropWhile, hd]
    | cons c2 rest2 =>
      by_cases hd : c.isDigit
      · simp only [digitsThenStrKind, List.dropWhile, hd, Bool.true_and, if_pos]
        exact ih
      · simp [digitsThenStrKind, List.dropWhile, hd]

theorem matchString_eq_kind (l : List Char) (sp : FmtSpec) (hp : parseFmt l = some sp) :
    matchStringChars l = (sp.kind == 'c' || sp.kind == 's') := by
  cases l with
  | nil => exact Option.noConfusion hp
  | cons c r =>
    by_cases ho : isOrderChar c
    · simp only [parseFmt, ho, if_pos] at hp
      simp only [matchStringChars, ho, if_pos, digitsThenStrKind_eq]
      split at hp
      next kc heq =>
        split at hp
        next hk => cases hp; rfl
        next => exact Option.noConfusion hp
      next hne => exact Option.noConfusion hp
    · simp only [parseFmt, ho, if_neg, Bool.false_eq_true, not_false_eq_true] at hp
      simp only [matchStringChars, ho, Bool.false_eq_true, if_neg, not_false_eq_true,
        digitsThenStrKind_eq]
      split at hp
      next kc heq =>
        split at hp
        next hk => cases hp; rfl
        next => exact Option.noConfusion hp
      next hne => exact Option.noConfusion hp

/-! ## Helper lemmas: integer encoding round trip -/

theorem emod_toNat_lt (z : Int) (w : Nat) : (z % (2 ^ (8 * w) : Int)).toNat < 256 ^ w := by
  have hpos : (0 : Int) < 2 ^ (8 * w) := by positivity
  have hlt : z % (2 ^ (8 * w) : Int) < 2 ^ (8 * w) := Int.emod_lt_of_pos z hpos
  have : ((2 : Int) ^ (8 * w)).toNat = 2 ^ (8 * w) := by
    rw [show ((2 : Int) ^ (8 * w)) = ((2 ^ (8 * w) : Nat) : Int) by push_cast; rfl]
    exact Int.toNat_natCast _
  rw [pow256]
  omega

theorem signed_decode (w : Nat) (hw : 0 < w) (z : Int)
    (h1 : -(2 ^ (8 * w - 1) : Int) ≤ z) (h2 : z < 2 ^ (8 * w - 1)) :
    (if ((z % (2 ^ (8 * w) : Int)).toNat : Nat) < 2 ^ (8 * w - 1) then
      (((z % (2 ^ (8 * w) : Int)).toNat : Int))
     else ((z % (2 ^ (8 * w) : Int)).toNat : Int) - 2 ^ (8 * w)) = z := by
  have hk : 8 * w = (8 * w - 1) + 1 := by omega
  have hP : (2 : Int) ^ (8 * w) = 2 * 2 ^ (8 * w - 1) := by
    have hp2 := pow_succ (2 : Int) (8 * w - 1)
    rw [← hk] at hp2
    rw [hp2, mul_comm]
  have ha : (0 : Int) < 2 ^ (8 * w - 1) := by positivity
  have hmod : z % (2 ^ (8 * w) : Int) = z ∨ z % (2 ^ (8 * w) : Int) = z + 2 ^ (8 * w) := by
    rcases le_or_lt 0 z with hz | hz
    · left
      exact Int.emod_eq_of_lt hz (by omega)
    · right
      have he : (z + 2 ^ (8 * w) * 1) % (2 ^ (8 * w) : Int) = z % (2 ^ (8 * w) : Int) :=
        Int.add_mul_emod_self_left z (2 ^ (8 * w)) 1
      rw [mul_one] at he
      rw [← he]
      exact Int.emod_eq_of_lt (by omega) (by omega)
  have hnn : 0 ≤ z % (2 ^ (8 * w) : Int) := Int.emod_nonneg z (by positivity)
  have ht : ((z % (2 ^ (8 * w) : Int)).toNat : Int) = z % (2 ^ (8 * w) : Int) :=
    Int.toNat_of_nonneg hnn
  have hcast : (((2 ^ (8 * w - 1) : Nat)) : Int) = 2 ^ (8 * w - 1) := by push_cast; rfl
  split
  next hlt =>
    have : ((z % (2 ^ (8 * w) : Int)).toNat : Int) < ((2 ^ (8 * w - 1) : Nat) : Int) := by
      exact_mod_cast hlt
    omega
  next hge =>
    have : ¬ (((z % (2 ^ (8 * w) : Int)).toNat : Int) < ((2 ^ (8 * w - 1) : Nat) : Int)) := by
      exact_mod_cast hge
    omega

theorem unsigned_decode (w : Nat) (z : Int) (h1 : 0 ≤ z) (h2 : z < 2 ^ (8 * w)) :
    ((z % (2 ^ (8 * w) : Int)).toNat : Int) = z := by
  rw [Int.emod_eq_of_lt h1 h2]
  exact Int.toNat_of_nonneg h1

theorem padTrunc_length (bs : Bytes) (w : Nat) : (padTrunc bs w).length = w := by
  unfold padTrunc
  split
  next hle => simp; omega
  next hgt => simp; omega

theorem itemSize_pos (native : Bool) (k : Char) (w : Nat) (hm : itemSize native k = some w) :
    0 < w := by
  unfold itemSize at hm
  repeat' split at hm
  all_goals first
    | exact Option.noConfusion hm
    | (cases hm; omega)

theorem take_own_length {α : Type} (l : List α) (w : Nat) (hl : l.length = w) :
    l.take w = l := by
  subst hl
  exact List.take_length l

theorem structCalcsizeFmt_parsed (s : String) (sp : FmtSpec)
    (hp : parseFmt s.toList = some sp) :
    structCalcsizeFmt s =
      (match itemSize sp.native sp.kind with
        | none => .exn .structError
        | some w => .ok (sp.count.getD 1 * w)) := by
  unfold structCalcsizeFmt
  rw [hp]

theorem bool_not_true {b : Bool} (hb : ¬ b = true) : b = false := by
  cases b
  · rfl
  · exact absurd rfl hb

theorem packIntK_ok (sp : FmtSpec) (w : Nat) (z : Int)
    (hr : (if isSignedKind sp.kind then
        decide (-(2 ^ (8 * w - 1) : Int) ≤ z) && decide (z < (2 ^ (8 * w - 1) : Int))
      else decide ((0 : Int) ≤ z) && decide (z < (2 ^ (8 * w) : Int))) = true) :
    packIntK sp z w = .ok (if sp.big
      then (natLEb w ((z % (2 ^ (8 * w) : Int)).toNat)).reverse
      else natLEb w ((z % (2 ^ (8 * w) : Int)).toNat)) := by
  simp only [packIntK]
  rw [hr]
  rfl

/-- Packing an in-range value for a valid tag succeeds, and unpacking the
packed bytes through `__getitem__`'s branch for that tag returns the value
(NUL-stripped for byte-string kinds). -/
theorem pack_unpack_roundtrip (h : Heap) (fmt : String) (sp : FmtSpec) (v : PyVal)
    (hparse : parseFmt fmt.toList = some sp)
    (hrange : inRangeB fmt v = true) :
    ∃ bs, packFmt h fmt v = .ok bs ∧
      (if matchStringB fmt then unpackStr fmt bs else unpackNum fmt bs) =
        .ok (expectedGet fmt v) := by
  have hstr : matchStringB fmt = (sp.kind == 'c' || sp.kind == 's') :=
    matchString_eq_kind fmt.toList sp hparse
  unfold inRangeB at hrange
  rw [hparse] at hrange
  unfold packFmt expectedGet
  rw [hparse]
  by_cases hs0 : sp.kind == 's'
  · -- kind 's': pad or truncate, get strips trailing NULs
    simp only [hs0, if_pos, if_true] at hrange ⊢
    cases v with
    | bytes bs0 =>
      simp only [decide_eq_true_eq] at hrange
      refine ⟨padTrunc bs0 (sp.count.getD 1), rfl, ?_⟩
      rw [hstr, hs0]
      simp only [Bool.or_true, if_true]
      unfold unpackStr
      rw [structCalcsizeFmt_parsed fmt sp hparse, eq_of_beq hs0]
      simp only [itemSize, show (('s' == '?' || 's' == 'b' || 's' == 'B' || 's' == 'c'
        || 's' == 's') = true) from by decide, if_pos, if_true]
      rw [if_pos (by rw [padTrunc_length]; omega)]
      unfold padTrunc
      rw [if_pos hrange, rstripNulls_append_zeros]
    | int z => exact absurd hrange (by simp)
    | bool b => exact absurd hrange (by simp)
    | float bits => exact absurd hrange (by simp)
    | struct sid => exact absurd hrange (by simp)
  · have hs : (sp.kind == 's') = false := bool_not_true hs0
    by_cases hc0 : sp.kind == 'c'
    · -- kind 'c': count must be 1 and the value a single byte
      simp only [hs, hc0, Bool.false_eq_true, if_false, if_pos, if_true] at hrange ⊢
      obtain ⟨hcnt, hv⟩ := Bool.and_eq_true_iff.mp hrange
      cases v with
      | bytes bs0 =>
        have hb1 : bs0.length = 1 := by simpa using hv
        obtain ⟨b, rfl⟩ : ∃ b, bs0 = [b] := by
          cases bs0 with
          | nil => simp at hb1
          | cons x r =>
            cases r with
            | nil => exact ⟨x, rfl⟩
            | cons y r2 => simp at hb1
        rw [if_pos hcnt]
        refine ⟨[b], rfl, ?_⟩
        rw [hstr, hc0]
        simp only [Bool.true_or, if_true]
        unfold unpackStr
        rw [structCalcsizeFmt_parsed fmt sp hparse, eq_of_beq hc0]
        simp only [itemSize, show (('c' == '?' || 'c' == 'b' || 'c' == 'B' || 'c' == 'c'
          || 'c' == 's') = true) from by decide, if_pos, if_true]
        rw [if_pos (by
          have hcc : sp.count.getD 1 = 1 := by simpa using hcnt
          simp [hcc])]
      | int z => exact absurd hv (by simp)
      | bool b => exact absurd hv (by simp)
      | float bits => exact absurd hv (by simp)
      | struct sid => exact absurd hv (by simp)
    · -- numeric kinds
      have hc : (sp.kind == 'c') = false := bool_not_true hc0
      simp only [hs, hc, Bool.false_eq_true, if_false] at hrange ⊢
      rw [hstr, hs, hc]
      simp only [Bool.or_false, Bool.false_eq_true, if_false]
      split at hrange
      next hcnt => exact absurd hrange (by simp)
      next hcnt0 =>
        have hcnt : (sp.count.getD 1 != 1) = false := bool_not_true hcnt0
        have hcnt1 : sp.count.getD 1 = 1 := by simpa using hcnt
        rw [if_neg hcnt0]
        split at hrange
        next hsz => exact absurd hrange (by simp)
        next w heq =>
          have hw : 0 < w := itemSize_pos sp.native sp.kind w heq
          by_cases hq0 : sp.kind == '?'
          · -- bool kind
            simp only [hq0, if_pos, if_true] at hrange ⊢
            cases v with
            | bool b =>
              refine ⟨[if truthy h (.bool b) then 1 else 0], rfl, ?_⟩
              have hw1 : w = 1 := by
                rw [eq_of_beq hq0] at heq
                simp [itemSize] at heq
                omega
              subst hw1
              simp only [unpackNum, hparse, heq, hcnt1]
              have hlen : ([if truthy h (.bool b) then 1 else 0] : Bytes).length = 1 * 1 := by
                cases hb : truthy h (.bool b) <;> rfl
              rw [if_neg (by rw [hlen]; exact fun hne => hne rfl)]
              simp only [show ((1 : Nat) == 0) = false from rfl, Bool.false_eq_true, if_false]
              unfold truthy decodeNum
              rw [eq_of_beq hq0]
              cases b with
              | true => cases hbig : sp.big <;> simp [lebNat]
              | false => cases hbig : sp.big <;> simp [lebNat]
            | int z => exact absurd hrange (by simp)
            | bytes bs0 => exact absurd hrange (by simp)
            | float bits => exact absurd hrange (by simp)
            | struct sid => exact absurd hrange (by simp)
          · have hq : (sp.kind == '?') = false := bool_not_true hq0
            by_cases hf0 : sp.kind == 'f'
            · -- float32 kind
              simp only [hq, hf0, Bool.false_eq_true, if_false, if_pos, if_true,
                Bool.true_or] at hrange ⊢
              cases v with
              | float bits =>
                obtain ⟨hb, hex⟩ := Bool.and_eq_true_iff.mp hrange
                have hb64 : bits < 2 ^ 64 := by simpa using hb
                unfold f32Exact at hex
                split at hex
                next p hn =>
                  obtain ⟨hp32b, hwdb⟩ := Bool.and_eq_true_iff.mp hex
                  have hp32 : p < 2 ^ 32 := by simpa using hp32b
                  have hwd : widenF p = bits := eq_of_beq hwdb
                  have hw4 : w = 4 := by
                    rw [eq_of_beq hf0] at heq
                    simp [itemSize] at heq
                    omega
                  subst hw4
                  unfold packFloatBits
                  rw [eq_of_beq hf0]
                  simp only [show (('f' == 'd') = false) from rfl, Bool.false_eq_true,
                    if_false, Nat.mod_eq_of_lt hb64, hn, Option.map_some]
                  refine ⟨_, rfl, ?_⟩
                  simp only [unpackNum, hparse, heq, hcnt1]
                  have hlen4 : (if sp.big then (natLEb 4 p).reverse else natLEb 4 p).length
                       = 1 * 4 := by
                    cases sp.big <;> simp [natLEb_length]
                  rw [if_neg (by rw [hlen4]; exact fun hne => hne rfl)]
                  simp only [show ((1 : Nat) == 0) = false from rfl, Bool.false_eq_true, if_false]
                  have hitem : (if sp.big then (natLEb 4 p).reverse else natLEb 4 p).take 4
                      = (if sp.big then (natLEb 4 p).reverse else natLEb 4 p) := by
                    apply take_own_length
                    cases sp.big <;> simp [natLEb_length]
                  rw [hitem]
                  have hback : (if sp.big
                      then (if sp.big then (natLEb 4 p).reverse else natLEb 4 p).reverse
                      else (if sp.big then (natLEb 4 p).reverse else natLEb 4 p))
                      = natLEb 4 p := by
                    cases sp.big <;> simp
                  rw [hback]
                  unfold decodeNum
                  rw [eq_of_beq hf0]
                  simp only [show (('f' == '?') = false) from rfl, Bool.false_eq_true, if_false,
                    show (('f' == 'f') = true) from rfl, if_true, if_pos]
                  rw [lebNat_natLEb,
                    Nat.mod_eq_of_lt (by rw [pow256]; exact lt_of_lt_of_le hp32 (by norm_num)),
                    hwd]
                next => exact Bool.noConfusion hex
              | int z => exact absurd hrange (by simp)
              | bytes bs0 => exact absurd hrange (by simp)
              | bool b => exact absurd hrange (by simp)
              | struct sid => exact absurd hrange (by simp)
            · have hf : (sp.kind == 'f') = false := bool_not_true hf0
              by_cases hd0 : sp.kind == 'd'
              · -- float64 kind
                simp only [hq, hf, hd0, Bool.false_eq_true, if_false, if_pos, if_true,
                  Bool.or_true] at hrange ⊢
                cases v with
                | float bits =>
                  have hb64 : bits < 2 ^ 64 := by simpa using hrange
                  have hw8 : w = 8 := by
                    rw [eq_of_beq hd0] at heq
                    simp [itemSize] at heq
                    omega
                  subst hw8
                  unfold packFloatBits
                  rw [eq_of_beq hd0]
                  simp only [show (('d' == 'd') = true) from rfl, if_true, if_pos,
                    Nat.mod_eq_of_lt hb64]
                  refine ⟨_, rfl, ?_⟩
                  simp only [unpackNum, hparse, heq, hcnt1]
                  have hlen8 : (if sp.big then (natLEb 8 bits).reverse else natLEb 8 bits).length
                      = 1 * 8 := by
                    cases sp.big <;> simp [natLEb_length]
                  rw [if_neg (by rw [hlen8]; exact fun hne => hne rfl)]
                  simp only [show ((1 : Nat) == 0) = false from rfl, Bool.false_eq_true, if_false]
                  have hitem : (if sp.big then (natLEb 8 bits).reverse else natLEb 8 bits).take 8
                      = (if sp.big then (natLEb 8 bits).reverse else natLEb 8 bits) := by
                    apply take_own_length
                    cases sp.big <;> simp [natLEb_length]
                  rw [hitem]
                  have hback : (if sp.big
                      then (if sp.big then (natLEb 8 bits).reverse else natLEb 8 bits).reverse
                      else (if sp.big then (natLEb 8 bits).reverse else natLEb 8 bits))
                      = natLEb 8 bits := by
                    cases sp.big <;> simp
                  rw [hback]
                  unfold decodeNum
                  rw [eq_of_beq hd0]
                  simp only [show (('d' == '?') = false) from rfl,
                    show (('d' == 'f') = false) from rfl, Bool.false_eq_true, if_false,
                    show (('d' == 'd') = true) from rfl, if_true, if_pos]
                  rw [lebNat_natLEb, Nat.mod_eq_of_lt (by rw [pow256]; norm_num; exact hb64)]
                | int z => exact absurd hrange (by simp)
                | bytes bs0 => exact absurd hrange (by simp)
                | bool b => exact absurd hrange (by simp)
                | struct sid => exact absurd hrange (by simp)
              · -- integer kinds
                have hd : (sp.kind == 'd') = false := bool_not_true hd0
                simp only [hq, hf, hd, Bool.false_eq_true, if_false, Bool.or_self] at hrange ⊢
                cases v with
                | int z =>
                  have hrange2 : (if isSignedKind sp.kind then
                      decide (-(2 ^ (8 * w - 1) : Int) ≤ z) && decide (z < (2 ^ (8 * w - 1) : Int))
                    else decide ((0 : Int) ≤ z) && decide (z < (2 ^ (8 * w) : Int))) = true :=
                    hrange
                  refine ⟨_, packIntK_ok sp w z hrange2, ?_⟩
                  simp only [unpackNum, hparse, heq, hcnt1]
                  set u : Nat := (z % (2 ^ (8 * w) : Int)).toNat with hu
                  have hlenw : (if sp.big then (natLEb w u).reverse else natLEb w u).length
                      = 1 * w := by
                    cases sp.big <;> simp [natLEb_length]
                  rw [if_neg (by rw [hlenw]; exact fun hne => hne rfl)]
                  simp only [show ((1 : Nat) == 0) = false from rfl, Bool.false_eq_true, if_false]
                  have hitem : (if sp.big then (natLEb w u).reverse else natLEb w u).take w
                      = (if sp.big then (natLEb w u).reverse else natLEb w u) := by
                    apply take_own_length
                    cases sp.big <;> simp [natLEb_length]
                  rw [hitem]
                  have hback : (if sp.big
                      then (if sp.big then (natLEb w u).reverse else natLEb w u).reverse
                      else (if sp.big then (natLEb w u).reverse else natLEb w u))
                      = natLEb w u := by
                    cases sp.big <;> simp
                  rw [hback]
                  unfold decodeNum
                  rw [lebNat_natLEb]
                  have humod : u % 256 ^ w = u :=
                    Nat.mod_eq_of_lt (by rw [hu]; exact emod_toNat_lt z w)
                  rw [humod]
                  simp only [hq, hf, hd, Bool.false_eq_true, if_false]
                  split at hrange2
                  next hsgn =>
                    rw [if_pos hsgn]
                    obtain ⟨hr1, hr2⟩ := Bool.and_eq_true_iff.mp hrange2
                    have h1 : -(2 ^ (8 * w - 1) : Int) ≤ z := of_decide_eq_true hr1
                    have h2 : z < (2 ^ (8 * w - 1) : Int) := of_decide_eq_true hr2
                    rw [hu]
                    rw [signed_decode w hw z h1 h2]
                  next hsgn =>
                    rw [if_neg hsgn]
                    obtain ⟨hr1, hr2⟩ := Bool.and_eq_true_iff.mp hrange2
                    have h1 : (0 : Int) ≤ z := of_decide_eq_true hr1
                    have h2 : z < (2 ^ (8 * w) : Int) := of_decide_eq_true hr2
                    rw [hu]
                    rw [unsigned_decode w z h1 h2]
                | bool b => exact absurd hrange (by simp)
                | bytes bs0 => exact absurd hrange (by simp)
                | float bits => exact absurd hrange (by simp)
                | struct sid => exact absurd hrange (by simp)

/-! ## Helper lemmas: heap updates -/

theorem setNth_length {α : Type} (l : List α) (n : Nat) (a : α) :
    (setNth l n a).length = l.length := by
  induction l generalizing n with
  | nil => rfl
  | cons x r ih =>
    cases n with
    | zero => rfl
    | succ m => simp [setNth, ih]

theorem get_setNth_self {α : Type} (l : List α) (n : Nat) (a b : α)
    (hg : l.get? n = some a) : (setNth l n b).get? n = some b := by
  induction l generalizing n with
  | nil => exact Option.noConfusion hg
  | cons x r ih =>
    cases n with
    | zero => rfl
    | succ m => exact ih m hg

theorem get_setNth_ne {α : Type} (l : List α) (n m : Nat) (b : α) (hne : n ≠ m) :
    (setNth l n b).get? m = l.get? m := by
  induction l generalizing n m with
  | nil => rfl
  | cons x r ih =>
    cases n with
    | zero =>
      cases m with
      | zero => exact absurd rfl hne
      | succ m2 => rfl
    | succ n2 =>
      cases m with
      | zero => rfl
      | succ m2 => exact ih n2 m2 (fun he => hne (by rw [he]))

theorem heapFind_heapSet_self (h : Heap) (sid : Nat) (obj o2 : StructObj)
    (hf : heapFind h sid = some obj) : heapFind (heapSet h sid o2) sid = some o2 :=
  get_setNth_self h.objs sid obj o2 hf

theorem heapFind_heapSet_ne (h : Heap) (sid i : Nat) (o2 : StructObj) (hne : sid ≠ i) :
    heapFind (heapSet h sid o2) i = heapFind h i :=
  get_setNth_ne h.objs sid i o2 hne

/-- C5: on any record, for every declared primitive field, every format
tag valid per the code's regexes and every in-range value `v`, `set`
succeeds and a subsequent `get` returns `v` for numeric kinds and `v` with
trailing NUL bytes stripped for byte-string kinds (`expectedGet`). -/
theorem c5_set_get_roundtrip
    (fs fg : Nat) (h : Heap) (sid : Nat) (key : String) (obj : StructObj) (d : FieldDict)
    (fmt : String) (v : PyVal)
    (hfind : heapFind h sid = some obj)
    (hget : storeGet obj.store key = some (.fdict d))
    (htype : d.type = some (.str fmt))
    (_hvalid : (matchNumberB fmt || matchStringB fmt) = true)
    (hrange : inRangeB fmt v = true) :
    ∃ h2, setitemS (fs + 1) h sid key v = .ok h2 ∧
      getitemS (fg + 1) h2 sid key = .ok (expectedGet fmt v) := by
  have hex : ∃ sp, parseFmt fmt.toList = some sp := by
    unfold inRangeB at hrange
    revert hrange
    cases hp : parseFmt fmt.toList with
    | none => intro hr; exact Bool.noConfusion hr
    | some sp => intro _; exact ⟨sp, rfl⟩
  obtain ⟨sp, hp⟩ := hex
  obtain ⟨bs, hpack, hunp⟩ := pack_unpack_roundtrip h fmt sp v hp hrange
  refine ⟨heapSet h sid { obj with store := (storeSet obj.store key
      (.fdict { d with value := some (.bytes bs) })) }, ?_, ?_⟩
  · simp only [setitemS, hfind, hget, htype, hpack]
    rfl
  · simp only [getitemS,
      heapFind_heapSet_self h sid obj _ hfind,
      storeGet_storeSet obj.store key _ _ hget, htype]
    exact hunp

/-- C5 witness: the round trip applied to the `{foo: type "<I", default 1}`
record with `v = 7`. -/
theorem c5_set_get_roundtrip_witness :
    expectedGet "<I" (.int 7) = .int 7 ∧
    ∃ h2, setitemS 9 (resHeap exInt) 0 "foo" (.int 7) = .ok h2 ∧
      getitemS 9 h2 0 "foo" = .ok (expectedGet "<I" (.int 7)) :=
  ⟨by decide,
    c5_set_get_roundtrip 8 8 (resHeap exInt) 0 "foo" exIntObj exIntFd
      "<I" (.int 7) (by decide) (by decide) (by decide) (by decide) (by decide)⟩

/-! ## Helper lemmas: closed regions and heap agreement -/

theorem storeGet_mem (st : List (String × Entry)) (k : String) (e : Entry)
    (hg : storeGet st k = some e) : e ∈ st.map Prod.snd := by
  induction st with
  | nil => exact Option.noConfusion hg
  | cons p rest ih =>
    obtain ⟨pk, pe⟩ := p
    by_cases hk : pk == k
    · simp only [storeGet, hk, if_pos, if_true] at hg
      cases hg
      simp
    · have hk2 : (pk == k) = false := bool_not_true hk
      simp only [storeGet, hk2, Bool.false_eq_true, if_false] at hg
      simp only [List.map_cons, List.mem_cons]
      exact Or.inr (ih hg)

theorem closedU_spec (h : Heap) (S : List Nat) (hc : closedU h S = true)
    (s : Nat) (hs : s ∈ S) :
    ∃ obj, heapFind h s = some obj ∧
      ∀ e ∈ obj.store.map Prod.snd, ∀ r ∈ entryRefs e, r ∈ S := by
  unfold closedU at hc
  have h1 := List.all_eq_true.mp hc s hs
  revert h1
  cases hf : heapFind h s with
  | none => intro h1; exact Bool.noConfusion h1
  | some obj =>
    intro h1
    refine ⟨obj, rfl, ?_⟩
    intro e he r hr
    have h2 := List.all_eq_true.mp h1 e he
    have h3 := List.all_eq_true.mp h2 r hr
    exact List.mem_of_elem_eq_true h3

theorem closedU_intro (h : Heap) (S : List Nat)
    (hp : ∀ s ∈ S, ∃ obj, heapFind h s = some obj ∧
      ∀ e ∈ obj.store.map Prod.snd, ∀ r ∈ entryRefs e, r ∈ S) :
    closedU h S = true := by
  unfold closedU
  refine List.all_eq_true.mpr ?_
  intro s hs
  obtain ⟨obj, hf, hr⟩ := hp s hs
  rw [hf]
  refine List.all_eq_true.mpr ?_
  intro e he
  refine List.all_eq_true.mpr ?_
  intro r hrr
  exact List.elem_eq_true_of_mem (hr e he r hrr)

theorem mem_lt_size (h : Heap) (S : List Nat) (hc : closedU h S = true)
    (s : Nat) (hs : s ∈ S) : s < h.size := by
  obtain ⟨obj, hf, _⟩ := closedU_spec h S hc s hs
  have := List.get?_eq_some.mp hf
  exact this.1

theorem closedU_agree (h1 h2 : Heap) (S : List Nat) (hc : closedU h1 S = true)
    (hag : agreeOn h1 h2 S) : closedU h2 S = true := by
  refine closedU_intro h2 S ?_
  intro s hs
  obtain ⟨obj, hf, hr⟩ := closedU_spec h1 S hc s hs
  exact ⟨obj, (hag s hs).symm.trans hf, hr⟩

theorem getitem_agree (f : Nat) (h1 h2 : Heap) (S : List Nat)
    (hc : closedU h1 S = true) (hag : agreeOn h1 h2 S) :
    ∀ sid ∈ S, ∀ k, getitemS f h1 sid k = getitemS f h2 sid k := by
  induction f with
  | zero => intro sid _ k; rfl
  | succ f ih =>
    intro sid hs k
    obtain ⟨obj, hf, hr⟩ := closedU_spec h1 S hc sid hs
    have hf2 : heapFind h2 sid = some obj := (hag sid hs).symm.trans hf
    simp only [getitemS, hf, hf2]
    cases hg : storeGet obj.store k with
    | none => rfl
    | some e =>
      cases e with
      | fdict d => rfl
      | sref c =>
        have hcm : c ∈ S := hr _ (storeGet_mem obj.store k _ hg) c (by simp [entryRefs])
        simp only [ih c hcm]

theorem unpackStr_shape (fmt : String) (bs : Bytes) (v : PyVal)
    (hv : unpackStr fmt bs = .ok v) : ∃ b2, v = .bytes b2 := by
  unfold unpackStr at hv
  split at hv
  next n hn =>
    split at hv
    · cases hv; exact ⟨_, rfl⟩
    · exact PRes.noConfusion hv
  next => exact PRes.noConfusion hv
  next => exact PRes.noConfusion hv

theorem decodeNum_shape (k : Char) (w : Nat) (le : Bytes) :
    ∀ r, decodeNum k w le ≠ .struct r := by
  intro r
  unfold decodeNum
  split
  · exact fun h => PyVal.noConfusion h
  · split
    · exact fun h => PyVal.noConfusion h
    · split
      · exact fun h => PyVal.noConfusion h
      · split
        · exact fun h => PyVal.noConfusion h
        · exact fun h => PyVal.noConfusion h

theorem unpackNum_shape (fmt : String) (bs : Bytes) (r : Nat)
    (hv : unpackNum fmt bs = .ok (.struct r)) : False := by
  unfold unpackNum at hv
  split at hv
  next => exact PRes.noConfusion hv
  next sp hsp =>
    split at hv
    next => exact PRes.noConfusion hv
    next w hw =>
      split at hv
      next => exact PRes.noConfusion hv
      next =>
        split at hv
        next => exact PRes.noConfusion hv
        next =>
          exact decodeNum_shape sp.kind w _ r (PRes.ok.inj hv)

theorem getitem_ref_mem (f : Nat) (h : Heap) (S : List Nat) (hc : closedU h S = true) :
    ∀ sid ∈ S, ∀ k r, getitemS f h sid k = .ok (.struct r) → r ∈ S := by
  induction f with
  | zero => intro sid _ k r hg; exact PRes.noConfusion hg
  | succ f ih =>
    intro sid hs k r hg
    obtain ⟨obj, hf, hr⟩ := closedU_spec h S hc sid hs
    simp only [getitemS, hf] at hg
    revert hg
    cases hge : storeGet obj.store k with
    | none => intro hg; exact PRes.noConfusion hg
    | some e =>
      cases e with
      | fdict d =>
        intro hg
        have hmem := storeGet_mem obj.store k _ hge
        revert hg
        obtain ⟨dt, dd, dh, dv⟩ := d
        cases dt with
        | none => intro hg; exact PRes.noConfusion hg
        | some ft =>
          cases dv with
          | none => intro hg; exact PRes.noConfusion hg
          | some fv =>
            cases ft with
            | str fmt =>
              cases fv with
              | ref s => intro hg; exact PRes.noConfusion hg
              | bytes bs =>
                intro hg
                have hg2 : (if matchStringB fmt then unpackStr fmt bs else unpackNum fmt bs)
                    = PRes.ok (PyVal.struct r) := hg
                split at hg2
                · obtain ⟨b2, hb2⟩ := unpackStr_shape fmt bs _ hg2
                  exact PyVal.noConfusion hb2
                · exact absurd hg2 (fun hh => unpackNum_shape fmt bs r hh)
            | struct t =>
              cases fv with
              | bytes bs => intro hg; exact PyVal.noConfusion (PRes.ok.inj hg)
              | ref s =>
                intro hg
                have hsr : s = r := PyVal.struct.inj (PRes.ok.inj hg)
                subst hsr
                exact hr _ hmem s (by simp [entryRefs, fvalRefs, dtypeRefs])
            | other =>
              cases fv with
              | bytes bs => intro hg; exact PyVal.noConfusion (PRes.ok.inj hg)
              | ref s =>
                intro hg
                have hsr : s = r := PyVal.struct.inj (PRes.ok.inj hg)
                subst hsr
                exact hr _ hmem s (by simp [entryRefs, fvalRefs, dtypeRefs])
      | sref c =>
        intro hg
        have hcm : c ∈ S := hr _ (storeGet_mem obj.store k _ hge) c (by simp [entryRefs])
        have hgb : (do
            let _ ← getitemS f h c "type"
            let v ← getitemS f h c "value"
            pure v : PRes PyVal) = PRes.ok (PyVal.struct r) := hg
        revert hgb
        cases hg1 : getitemS f h c "type" with
        | div => intro hgb; exact PRes.noConfusion hgb
        | exn e => intro hgb; exact PRes.noConfusion hgb
        | ok tv =>
          cases hg2 : getitemS f h c "value" with
          | div => intro hgb; exact PRes.noConfusion hgb
          | exn e => intro hgb; exact PRes.noConfusion hgb
          | ok vv =>
            intro hgb
            have hvv : vv = PyVal.struct r := PRes.ok.inj hgb
            subst hvv
            exact ih c hcm "value" r hg2

theorem pickleEntries_congr (cb1 cb2 : Nat → PRes Bytes) (cg1 cg2 : Nat → String → PRes PyVal)
    (S : List Nat)
    (hcb : ∀ s ∈ S, cb1 s = cb2 s)
    (hcg : ∀ s ∈ S, ∀ k, cg1 s k = cg2 s k)
    (hcgr : ∀ s ∈ S, ∀ k r, cg1 s k = .ok (.struct r) → r ∈ S) :
    ∀ st : List (String × Entry),
      (∀ e ∈ st.map Prod.snd, ∀ r ∈ entryRefs e, r ∈ S) →
      pickleEntries cb1 cg1 st = pickleEntries cb2 cg2 st := by
  intro st
  induction st with
  | nil => intro _; rfl
  | cons p rest ih =>
    intro hrefs
    obtain ⟨pk, pe⟩ := p
    have hrest : ∀ e ∈ rest.map Prod.snd, ∀ r ∈ entryRefs e, r ∈ S :=
      fun e he r hrr => hrefs e (by simp [he]) r hrr
    cases pe with
    | fdict d =>
      cases hdv : d.value with
      | none => simp only [pickleEntries, hdv, ih hrest]
      | some fv =>
        cases fv with
        | bytes bs => simp only [pickleEntries, hdv, ih hrest]
        | ref s =>
          have hsS : s ∈ S := hrefs (Entry.fdict d) (by simp) s (by simp [entryRefs, hdv, fvalRefs])
          simp only [pickleEntries, hdv, hcb s hsS, ih hrest]
    | sref c =>
      have hcS : c ∈ S := hrefs (Entry.sref c) (by simp) c (by simp [entryRefs])
      simp only [pickleEntries, hcg c hcS "value", ih hrest]
      cases hres : cg2 c "value" with
      | div => rfl
      | exn e => rfl
      | ok fv =>
        cases fv with
        | struct s =>
          have hsS : s ∈ S := hcgr c hcS "value" s (by rw [hcg c hcS "value"]; exact hres)
          simp only [PRes.bindM_ok]
          rw [hcb s hsS]
        | int z => rfl
        | bool b => rfl
        | bytes bs => rfl
        | float bits => rfl

theorem calcEntries_congr (cb1 cb2 : Nat → PRes Nat) (cg1 cg2 : Nat → String → PRes PyVal)
    (S : List Nat)
    (hcb : ∀ s ∈ S, cb1 s = cb2 s)
    (hcg : ∀ s ∈ S, ∀ k, cg1 s k = cg2 s k)
    (hcgr : ∀ s ∈ S, ∀ k r, cg1 s k = .ok (.struct r) → r ∈ S) :
    ∀ st : List (String × Entry),
      (∀ e ∈ st.map Prod.snd, ∀ r ∈ entryRefs e, r ∈ S) →
      calcEntries cb1 cg1 st = calcEntries cb2 cg2 st := by
  intro st
  induction st with
  | nil => intro _; rfl
  | cons p rest ih =>
    intro hrefs
    obtain ⟨pk, pe⟩ := p
    have hrest : ∀ e ∈ rest.map Prod.snd, ∀ r ∈ entryRefs e, r ∈ S :=
      fun e he r hrr => hrefs e (by simp [he]) r hrr
    cases pe with
    | fdict d =>
      cases hdt : d.type with
      | none => simp only [calcEntries, hdt, ih hrest]
      | some ft =>
        cases ft with
        | str fmt => simp only [calcEntries, hdt, ih hrest]
        | other => simp only [calcEntries, hdt, ih hrest]
        | struct s =>
          have hsS : s ∈ S := hrefs (Entry.fdict d) (by simp) s (by simp [entryRefs, hdt, dtypeRefs])
          simp only [calcEntries, hdt, hcb s hsS, ih hrest]
    | sref c =>
      have hcS : c ∈ S := hrefs (Entry.sref c) (by simp) c (by simp [entryRefs])
      simp only [calcEntries, hcg c hcS "type", ih hrest]
      cases hres : cg2 c "type" with
      | div => rfl
      | exn e => rfl
      | ok fv =>
        cases fv with
        | struct s =>
          have hsS : s ∈ S := hcgr c hcS "type" s (by rw [hcg c hcS "type"]; exact hres)
          simp only [PRes.bindM_ok]
          rw [hcb s hsS]
        | int z => rfl
        | bool b => rfl
        | bytes bs => rfl
        | float bits => rfl

theorem pickle_agree (f : Nat) (h1 h2 : Heap) (S : List Nat)
    (hc : closedU h1 S = true) (hag : agreeOn h1 h2 S) :
    ∀ sid ∈ S, pickleS f h1 sid = pickleS f h2 sid := by
  induction f with
  | zero => intro sid _; rfl
  | succ f ih =>
    intro sid hs
    obtain ⟨obj, hf, hr⟩ := closedU_spec h1 S hc sid hs
    have hf2 : heapFind h2 sid = some obj := (hag sid hs).symm.trans hf
    simp only [pickleS, hf, hf2]
    exact pickleEntries_congr (pickleS f h1) (pickleS f h2) (getitemS f h1) (getitemS f h2) S
      (fun s hs2 => ih s hs2)
      (fun s hs2 k => getitem_agree f h1 h2 S hc hag s hs2 k)
      (fun s hs2 k r hgr => getitem_ref_mem f h1 S hc s hs2 k r hgr)
      obj.store hr

theorem calcsize_agree (f : Nat) (h1 h2 : Heap) (S : List Nat)
    (hc : closedU h1 S = true) (hag : agreeOn h1 h2 S) :
    ∀ sid ∈ S, calcsizeS f h1 sid = calcsizeS f h2 sid := by
  induction f with
  | zero => intro sid _; rfl
  | succ f ih =>
    intro sid hs
    obtain ⟨obj, hf, hr⟩ := closedU_spec h1 S hc sid hs
    have hf2 : heapFind h2 sid = some obj := (hag sid hs).symm.trans hf
    simp only [calcsizeS, hf, hf2]
    exact calcEntries_congr (calcsizeS f h1) (calcsizeS f h2) (getitemS f h1) (getitemS f h2) S
      (fun s hs2 => ih s hs2)
      (fun s hs2 k => getitem_agree f h1 h2 S hc hag s hs2 k)
      (fun s hs2 k r hgr => getitem_ref_mem f h1 S hc s hs2 k r hgr)
      obj.store hr

theorem heapSet_size (h : Heap) (sid : Nat) (o : StructObj) :
    (heapSet h sid o).size = h.size := by
  simp [Heap.size, heapSet, setNth_length]

/-- A successful `set` on an id inside a closed region changes no heap
cell outside that region and keeps the heap's size. -/
theorem setitem_frame : ∀ (f : Nat) (h : Heap) (sid : Nat) (k : String) (v : PyVal)
    (h2 : Heap) (S : List Nat), closedU h S = true → sid ∈ S →
    setitemS f h sid k v = .ok h2 →
    (∀ i, i ∉ S → heapFind h2 i = heapFind h i) ∧ h2.size = h.size := by
  intro f
  induction f with
  | zero => intro h sid k v h2 S _ _ hset; exact PRes.noConfusion hset
  | succ f ih =>
    intro h sid k v h2 S hc hs hset
    obtain ⟨obj, hf, hr⟩ := closedU_spec h S hc sid hs
    have hkey : ∀ o2 : StructObj, heapSet h sid o2 = h2 →
        (∀ i, i ∉ S → heapFind h2 i = heapFind h i) ∧ h2.size = h.size := by
      intro o2 he
      subst he
      exact ⟨fun i hi => heapFind_heapSet_ne h sid i o2 (fun hee => hi (hee ▸ hs)),
        heapSet_size h sid o2⟩
    simp only [setitemS, hf] at hset
    revert hset
    cases hge : storeGet obj.store k with
    | none => intro hset; exact PRes.noConfusion hset
    | some e =>
      cases e with
      | fdict d =>
        obtain ⟨dt, dd, dh, dv⟩ := d
        cases dt with
        | none => intro hset; exact PRes.noConfusion hset
        | some ft =>
          cases ft with
          | struct t =>
            cases v with
            | struct s2 => intro hset; exact hkey _ (PRes.ok.inj hset)
            | int z => intro hset; exact PRes.noConfusion hset
            | bool b => intro hset; exact PRes.noConfusion hset
            | bytes bs => intro hset; exact PRes.noConfusion hset
            | float bits => intro hset; exact PRes.noConfusion hset
          | str fmt =>
            cases hpk : packFmt h fmt v with
            | exn e2 =>
              intro hset
              have hset2 : PRes.bind (packFmt h fmt v) _ = PRes.ok h2 := hset
              rw [hpk] at hset2
              exact PRes.noConfusion hset2
            | div =>
              intro hset
              have hset2 : PRes.bind (packFmt h fmt v) _ = PRes.ok h2 := hset
              rw [hpk] at hset2
              exact PRes.noConfusion hset2
            | ok bs =>
              intro hset
              have hset2 : PRes.bind (packFmt h fmt v)
                  (fun bs2 => PRes.ok (heapSet h sid
                    ⟨obj.structname, obj.helpstring,
                      storeSet obj.store k (Entry.fdict ⟨some (DType.str fmt), dd, dh,
                        some (FValue.bytes bs2)⟩)⟩)) = PRes.ok h2 := hset
              rw [hpk] at hset2
              exact hkey _ (PRes.ok.inj hset2)
          | other => intro hset; exact PRes.noConfusion hset
      | sref c =>
        have hcS : c ∈ S := hr _ (storeGet_mem obj.store k _ hge) c (by simp [entryRefs])
        cases hgt : getitemS f h c "type" with
        | exn e2 =>
          intro hset
          have hset2 : PRes.bind (getitemS f h c "type") _ = PRes.ok h2 := hset
          rw [hgt] at hset2
          exact PRes.noConfusion hset2
        | div =>
          intro hset
          have hset2 : PRes.bind (getitemS f h c "type") _ = PRes.ok h2 := hset
          rw [hgt] at hset2
          exact PRes.noConfusion hset2
        | ok tv =>
          intro hset
          have hset2 : PRes.bind (getitemS f h c "type")
              (fun fmt => match fmt with
                | .struct _ =>
                  match v with
                  | .struct s2 => PRes.ok (heapSet h sid
                      { obj with store := (storeSet obj.store k (.sref s2)) })
                  | _ => PRes.exn Err.typeError
                | _ => PRes.bind (packPyFmt h fmt v)
                    (fun bs => setitemS f h c "value" (.bytes bs))) = PRes.ok h2 := hset
          rw [hgt] at hset2
          simp only [PRes.bind_ok] at hset2
          revert hset2
          cases tv with
          | struct t2 =>
            cases v with
            | struct s2 => intro hset2; exact hkey _ (PRes.ok.inj hset2)
            | int z => intro hset2; exact PRes.noConfusion hset2
            | bool b => intro hset2; exact PRes.noConfusion hset2
            | bytes bs => intro hset2; exact PRes.noConfusion hset2
            | float bits => intro hset2; exact PRes.noConfusion hset2
          | int z2 =>
            intro hset2
            have hset3 : PRes.bind (packPyFmt h (PyVal.int z2) v)
                (fun bs => setitemS f h c "value" (PyVal.bytes bs)) = PRes.ok h2 := hset2
            cases hpp : packPyFmt h (PyVal.int z2) v with
            | exn e2 => rw [hpp] at hset3; exact PRes.noConfusion hset3
            | div => rw [hpp] at hset3; exact PRes.noConfusion hset3
            | ok bs =>
              rw [hpp] at hset3
              simp only [PRes.bind_ok] at hset3
              exact ih h c "value" (.bytes bs) h2 S hc hcS hset3
          | bool b2 =>
            intro hset2
            have hset3 : PRes.bind (packPyFmt h (PyVal.bool b2) v)
                (fun bs => setitemS f h c "value" (PyVal.bytes bs)) = PRes.ok h2 := hset2
            cases hpp : packPyFmt h (PyVal.bool b2) v with
            | exn e2 => rw [hpp] at hset3; exact PRes.noConfusion hset3
            | div => rw [hpp] at hset3; exact PRes.noConfusion hset3
            | ok bs =>
              rw [hpp] at hset3
              simp only [PRes.bind_ok] at hset3
              exact ih h c "value" (.bytes bs) h2 S hc hcS hset3
          | bytes bb2 =>
            intro hset2
            have hset3 : PRes.bind (packPyFmt h (PyVal.bytes bb2) v)
                (fun bs => setitemS f h c "value" (PyVal.bytes bs)) = PRes.ok h2 := hset2
            cases hpp : packPyFmt h (PyVal.bytes bb2) v with
            | exn e2 => rw [hpp] at hset3; exact PRes.noConfusion hset3
            | div => rw [hpp] at hset3; exact PRes.noConfusion hset3
            | ok bs =>
              rw [hpp] at hset3
              simp only [PRes.bind_ok] at hset3
              exact ih h c "value" (.bytes bs) h2 S hc hcS hset3
          | float ff2 =>
            intro hset2
            have hset3 : PRes.bind (packPyFmt h (PyVal.float ff2) v)
                (fun bs => setitemS f h c "value" (PyVal.bytes bs)) = PRes.ok h2 := hset2
            cases hpp : packPyFmt h (PyVal.float ff2) v with
            | exn e2 => rw [hpp] at hset3; exact PRes.noConfusion hset3
            | div => rw [hpp] at hset3; exact PRes.noConfusion hset3
            | ok bs =>
              rw [hpp] at hset3
              simp only [PRes.bind_ok] at hset3
              exact ih h c "value" (.bytes bs) h2 S hc hcS hset3

/-! ## Helper lemmas: deepcopy freshness -/

theorem memoFind_mem (m : Memo) (sid nid : Nat) (hm : memoFind m sid = some nid) :
    (sid, nid) ∈ m := by
  induction m with
  | nil => exact Option.noConfusion hm
  | cons p rest ih =>
    obtain ⟨a, b⟩ := p
    by_cases ha : a == sid
    · simp only [memoFind, ha, if_pos, if_true] at hm
      cases hm
      have hab : a = sid := by simpa using ha
      subst hab
      simp
    · have ha2 : (a == sid) = false := bool_not_true ha
      simp only [memoFind, ha2, Bool.false_eq_true, if_false] at hm
      simp only [List.mem_cons]
      exact Or.inr (ih hm)

theorem heapPush_size (h : Heap) (o : StructObj) : (heapPush h o).size = h.size + 1 := by
  simp [Heap.size, heapPush]

theorem heapFind_push_lt (h : Heap) (o : StructObj) (i : Nat) (hi : i < h.size) :
    heapFind (heapPush h o) i = heapFind h i := by
  simp only [heapFind, heapPush]
  exact List.get?_append hi

theorem heapFind_push_self (h : Heap) (o : StructObj) :
    heapFind (heapPush h o) h.size = some o := by
  simp only [heapFind, heapPush]
  exact List.get?_concat_length h.objs o

theorem heapFind_none_of_ge (h : Heap) (i : Nat) (hi : h.size ≤ i) :
    heapFind h i = none :=
  List.get?_eq_none.mpr hi

theorem heapFind_some_of_lt (h : Heap) (i : Nat) (hi : i < h.size) :
    ∃ o, heapFind h i = some o := by
  cases hf : heapFind h i with
  | some o => exact ⟨o, rfl⟩
  | none =>
    have hlen : h.objs.length ≤ i := List.get?_eq_none.mp hf
    have : h.size = h.objs.length := rfl
    omega

theorem heapFind_lt_of_some (h : Heap) (i : Nat) (o : StructObj)
    (hf : heapFind h i = some o) : i < h.size :=
  (List.get?_eq_some.mp hf).1

theorem regionL_mem (a b r : Nat) : r ∈ regionL a b ↔ a ≤ r ∧ r < b := by
  unfold regionL
  simp only [List.mem_map, List.mem_range]
  constructor
  · rintro ⟨i, hi, rfl⟩
    omega
  · intro ⟨h1, h2⟩
    exact ⟨r - a, by omega, by omega⟩

theorem dcDType_spec (N : Nat) (cb : Heap → Memo → Nat → Option (Heap × Memo × Nat))
    (hcb : CBSpec N cb) (h : Heap) (m : Memo) (t : DType) (h2 : Heap) (m2 : Memo) (t2 : DType)
    (hdc : dcDType cb h m t = some (h2, m2, t2))
    (hN : N ≤ h.size) (hR : RefsFrom N h) (hM : MemoR N h m) :
    h.size ≤ h2.size ∧ (∀ i, i < h.size → heapFind h2 i = heapFind h i) ∧
    RefsFrom N h2 ∧ MemoR N h2 m2 ∧
    (∀ r ∈ dtypeRefs (some t2), N ≤ r ∧ r < h2.size) := by
  cases t with
  | str s2 =>
    cases hdc
    exact ⟨Nat.le_refl _, fun i _ => rfl, hR, hM, by simp [dtypeRefs]⟩
  | other =>
    cases hdc
    exact ⟨Nat.le_refl _, fun i _ => rfl, hR, hM, by simp [dtypeRefs]⟩
  | struct sid =>
    simp only [dcDType] at hdc
    revert hdc
    cases hc3 : cb h m sid with
    | none => intro hdc; exact Option.noConfusion hdc
    | some r =>
      obtain ⟨h3, m3, nid⟩ := r
      intro hdc
      have hdc2 : some (h3, m3, DType.struct nid) = _ := hdc
      cases hdc2
      obtain ⟨hm1, hm2, hm3, hm4, hm5, hm6⟩ := hcb h m sid h2 m2 nid hc3 hN hR hM
      exact ⟨hm1, hm2, hm3, hm4, by simp [dtypeRefs]; omega⟩

theorem dcPyVal_spec (N : Nat) (cb : Heap → Memo → Nat → Option (Heap × Memo × Nat))
    (hcb : CBSpec N cb) (h : Heap) (m : Memo) (v : PyVal) (h2 : Heap) (m2 : Memo) (v2 : PyVal)
    (hdc : dcPyVal cb h m v = some (h2, m2, v2))
    (hN : N ≤ h.size) (hR : RefsFrom N h) (hM : MemoR N h m) :
    h.size ≤ h2.size ∧ (∀ i, i < h.size → heapFind h2 i = heapFind h i) ∧
    RefsFrom N h2 ∧ MemoR N h2 m2 := by
  cases v with
  | struct sid =>
    simp only [dcPyVal] at hdc
    revert hdc
    cases hc3 : cb h m sid with
    | none => intro hdc; exact Option.noConfusion hdc
    | some r =>
      obtain ⟨h3, m3, nid⟩ := r
      intro hdc
      have hdc2 : some (h3, m3, PyVal.struct nid) = _ := hdc
      cases hdc2
      obtain ⟨hm1, hm2, hm3, hm4, _, _⟩ := hcb h m sid h2 m2 nid hc3 hN hR hM
      exact ⟨hm1, hm2, hm3, hm4⟩
  | int z => cases hdc; exact ⟨Nat.le_refl _, fun i _ => rfl, hR, hM⟩
  | bool b => cases hdc; exact ⟨Nat.le_refl _, fun i _ => rfl, hR, hM⟩
  | bytes bs => cases hdc; exact ⟨Nat.le_refl _, fun i _ => rfl, hR, hM⟩
  | float bits => cases hdc; exact ⟨Nat.le_refl _, fun i _ => rfl, hR, hM⟩

theorem dcFValue_spec (N : Nat) (cb : Heap → Memo → Nat → Option (Heap × Memo × Nat))
    (hcb : CBSpec N cb) (h : Heap) (m : Memo) (v : FValue) (h2 : Heap) (m2 : Memo) (v2 : FValue)
    (hdc : dcFValue cb h m v = some (h2, m2, v2))
    (hN : N ≤ h.size) (hR : RefsFrom N h) (hM : MemoR N h m) :
    h.size ≤ h2.size ∧ (∀ i, i < h.size → heapFind h2 i = heapFind h i) ∧
    RefsFrom N h2 ∧ MemoR N h2 m2 ∧
    (∀ r ∈ fvalRefs (some v2), N ≤ r ∧ r < h2.size) := by
  cases v with
  | bytes bs =>
    cases hdc
    exact ⟨Nat.le_refl _, fun i _ => rfl, hR, hM, by simp [fvalRefs]⟩
  | ref sid =>
    simp only [dcFValue] at hdc
    revert hdc
    cases hc3 : cb h m sid with
    | none => intro hdc; exact Option.noConfusion hdc
    | some r =>
      obtain ⟨h3, m3, nid⟩ := r
      intro hdc
      have hdc2 : some (h3, m3, FValue.ref nid) = _ := hdc
      cases hdc2
      obtain ⟨hm1, hm2, hm3, hm4, hm5, hm6⟩ := hcb h m sid h2 m2 nid hc3 hN hR hM
      exact ⟨hm1, hm2, hm3, hm4, by simp [fvalRefs]; omega⟩

theorem dcOptDType_spec (N : Nat) (cb : Heap → Memo → Nat → Option (Heap × Memo × Nat))
    (hcb : CBSpec N cb) (h : Heap) (m : Memo) (t : Option DType)
    (h2 : Heap) (m2 : Memo) (t2 : Option DType)
    (hdc : dcOptDType cb h m t = some (h2, m2, t2))
    (hN : N ≤ h.size) (hR : RefsFrom N h) (hM : MemoR N h m) :
    h.size ≤ h2.size ∧ (∀ i, i < h.size → heapFind h2 i = heapFind h i) ∧
    RefsFrom N h2 ∧ MemoR N h2 m2 ∧
    (∀ r ∈ dtypeRefs t2, N ≤ r ∧ r < h2.size) := by
  cases t with
  | none =>
    cases hdc
    exact ⟨Nat.le_refl _, fun i _ => rfl, hR, hM, by simp [dtypeRefs]⟩
  | some t0 =>
    simp only [dcOptDType] at hdc
    revert hdc
    cases hc3 : dcDType cb h m t0 with
    | none => intro hdc; exact Option.noConfusion hdc
    | some r =>
      obtain ⟨h3, m3, t3⟩ := r
      intro hdc
      have hdc2 : some (h3, m3, some t3) = _ := hdc
      cases hdc2
      exact dcDType_spec N cb hcb h m t0 h2 m2 t3 hc3 hN hR hM

theorem dcOptPyVal_spec (N : Nat) (cb : Heap → Memo → Nat → Option (Heap × Memo × Nat))
    (hcb : CBSpec N cb) (h : Heap) (m : Memo) (v : Option PyVal)
    (h2 : Heap) (m2 : Memo) (v2 : Option PyVal)
    (hdc : dcOptPyVal cb h m v = some (h2, m2, v2))
    (hN : N ≤ h.size) (hR : RefsFrom N h) (hM : MemoR N h m) :
    h.size ≤ h2.size ∧ (∀ i, i < h.size → heapFind h2 i = heapFind h i) ∧
    RefsFrom N h2 ∧ MemoR N h2 m2 := by
  cases v with
  | none =>
    cases hdc
    exact ⟨Nat.le_refl _, fun i _ => rfl, hR, hM⟩
  | some v0 =>
    simp only [dcOptPyVal] at hdc
    revert hdc
    cases hc3 : dcPyVal cb h m v0 with
    | none => intro hdc; exact Option.noConfusion hdc
    | some r =>
      obtain ⟨h3, m3, v3⟩ := r
      intro hdc
      have hdc2 : some (h3, m3, some v3) = _ := hdc
      cases hdc2
      exact dcPyVal_spec N cb hcb h m v0 h2 m2 v3 hc3 hN hR hM

theorem dcOptFValue_spec (N : Nat) (cb : Heap → Memo → Nat → Option (Heap × Memo × Nat))
    (hcb : CBSpec N cb) (h : Heap) (m : Memo) (v : Option FValue)
    (h2 : Heap) (m2 : Memo) (v2 : Option FValue)
    (hdc : dcOptFValue cb h m v = some (h2, m2, v2))
    (hN : N ≤ h.size) (hR : RefsFrom N h) (hM : MemoR N h m) :
    h.size ≤ h2.size ∧ (∀ i, i < h.size → heapFind h2 i = heapFind h i) ∧
    RefsFrom N h2 ∧ MemoR N h2 m2 ∧
    (∀ r ∈ fvalRefs v2, N ≤ r ∧ r < h2.size) := by
  cases v with
  | none =>
    cases hdc
    exact ⟨Nat.le_refl _, fun i _ => rfl, hR, hM, by simp [fvalRefs]⟩
  | some v0 =>
    simp only [dcOptFValue] at hdc
    revert hdc
    cases hc3 : dcFValue cb h m v0 with
    | none => intro hdc; exact Option.noConfusion hdc
    | some r =>
      obtain ⟨h3, m3, v3⟩ := r
      intro hdc
      have hdc2 : some (h3, m3, some v3) = _ := hdc
      cases hdc2
      exact dcFValue_spec N cb hcb h m v0 h2 m2 v3 hc3 hN hR hM

theorem dcEntry_spec (N : Nat) (cb : Heap → Memo → Nat → Option (Heap × Memo × Nat))
    (hcb : CBSpec N cb) (h : Heap) (m : Memo) (e : Entry)
    (h2 : Heap) (m2 : Memo) (e2 : Entry)
    (hdc : dcEntry cb h m e = some (h2, m2, e2))
    (hN : N ≤ h.size) (hR : RefsFrom N h) (hM : MemoR N h m) :
    h.size ≤ h2.size ∧ (∀ i, i < h.size → heapFind h2 i = heapFind h i) ∧
    RefsFrom N h2 ∧ MemoR N h2 m2 ∧
    (∀ r ∈ entryRefs e2, N ≤ r ∧ r < h2.size) := by
  cases e with
  | sref c =>
    simp only [dcEntry] at hdc
    revert hdc
    cases hc3 : cb h m c with
    | none => intro hdc; exact Option.noConfusion hdc
    | some r =>
      obtain ⟨h3, m3, nid⟩ := r
      intro hdc
      have hdc2 : some (h3, m3, Entry.sref nid) = _ := hdc
      cases hdc2
      obtain ⟨hm1, hm2, hm3, hm4, hm5, hm6⟩ := hcb h m c h2 m2 nid hc3 hN hR hM
      exact ⟨hm1, hm2, hm3, hm4, by simp [entryRefs]; omega⟩
  | fdict d =>
    simp only [dcEntry] at hdc
    split at hdc
    · exact Option.noConfusion hdc
    · rename_i ha ma t2 hc1
      split at hdc
      · exact Option.noConfusion hdc
      · rename_i hb mb df2 hc2
        split at hdc
        · exact Option.noConfusion hdc
        · rename_i hcc mc v2 hc3
          cases hdc
          obtain ⟨ha1, ha2, ha3, ha4, ha5⟩ :=
            dcOptDType_spec N cb hcb h m d.type ha ma t2 hc1 hN hR hM
          obtain ⟨hb1, hb2, hb3, hb4⟩ :=
            dcOptPyVal_spec N cb hcb ha ma d.dflt hb mb df2 hc2 (by omega) ha3 ha4
          obtain ⟨hc1x, hc2x, hc3x, hc4x, hc5x⟩ :=
            dcOptFValue_spec N cb hcb hb mb d.value h2 m2 v2 hc3 (by omega) hb3 hb4
          refine ⟨by omega, ?_, hc3x, hc4x, ?_⟩
          · intro i hi
            rw [hc2x i (by omega), hb2 i (by omega), ha2 i hi]
          · intro r hrr
            simp only [entryRefs] at hrr
            rcases List.mem_append.mp hrr with hrt | hrv
            · have := ha5 r hrt
              omega
            · have := hc5x r hrv
              omega

theorem dcStore_spec (N : Nat) (cb : Heap → Memo → Nat → Option (Heap × Memo × Nat))
    (hcb : CBSpec N cb) :
    ∀ (st : List (String × Entry)) (h : Heap) (m : Memo) (h2 : Heap) (m2 : Memo)
      (st2 : List (String × Entry)),
      dcStore cb h m st = some (h2, m2, st2) →
      N ≤ h.size → RefsFrom N h → MemoR N h m →
      h.size ≤ h2.size ∧ (∀ i, i < h.size → heapFind h2 i = heapFind h i) ∧
      RefsFrom N h2 ∧ MemoR N h2 m2 ∧
      (∀ e ∈ st2.map Prod.snd, ∀ r ∈ entryRefs e, N ≤ r ∧ r < h2.size) := by
  intro st
  induction st with
  | nil =>
    intro h m h2 m2 st2 hdc hN hR hM
    cases hdc
    exact ⟨Nat.le_refl _, fun i _ => rfl, hR, hM, by simp⟩
  | cons p rest ih =>
    intro h m h2 m2 st2 hdc hN hR hM
    obtain ⟨pk, pe⟩ := p
    simp only [dcStore] at hdc
    split at hdc
    · exact Option.noConfusion hdc
    · rename_i h1 m1 e2 hce
      split at hdc
      · exact Option.noConfusion hdc
      · rename_i hb mb r2 hcs
        cases hdc
        obtain ⟨e1, e2p, e3, e4, e5⟩ := dcEntry_spec N cb hcb h m pe h1 m1 e2 hce hN hR hM
        obtain ⟨s1, s2, s3, s4, s5⟩ := ih h1 m1 h2 m2 r2 hcs (by omega) e3 e4
        refine ⟨by omega, ?_, s3, s4, ?_⟩
        · intro i hi
          rw [s2 i (by omega), e2p i hi]
        · intro e he r hrr
          simp only [List.map_cons, List.mem_cons] at he
          rcases he with he1 | he2
          · subst he1
            have := e5 r hrr
            omega
          · exact s5 e he2 r hrr

theorem dcStruct_spec (N : Nat) : ∀ f : Nat, CBSpec N (dcStruct f) := by
  intro f
  induction f with
  | zero => intro h m sid h2 m2 nid hdc; exact Option.noConfusion hdc
  | succ f ih =>
    intro h m sid h2 m2 nid hdc hN hR hM
    simp only [dcStruct] at hdc
    split at hdc
    · rename_i nid1 hmf
      cases hdc
      have hb := hM (sid, nid) (memoFind_mem m sid nid hmf)
      exact ⟨Nat.le_refl _, fun i _ => rfl, hR, hM, hb.1, hb.2⟩
    · rename_i hmf
      split at hdc
      · exact Option.noConfusion hdc
      · rename_i obj hfo
        split at hdc
        · exact Option.noConfusion hdc
        · rename_i h2x m2x st2 hcs
          cases hdc
          have hN1 : N ≤ (heapPush h ⟨obj.structname, obj.helpstring, []⟩).size := by
            rw [heapPush_size]; omega
          have hR1 : RefsFrom N (heapPush h ⟨obj.structname, obj.helpstring, []⟩) := by
            intro i obj2 hNi hfi e he r hrr
            rcases Nat.lt_trichotomy i h.size with hlt | heq | hgt
            · rw [heapFind_push_lt h _ i hlt] at hfi
              have := hR i obj2 hNi hfi e he r hrr
              rw [heapPush_size]
              omega
            · subst heq
              rw [heapFind_push_self] at hfi
              cases hfi
              simp at he
            · rw [heapFind_none_of_ge _ i (by rw [heapPush_size]; omega)] at hfi
              exact Option.noConfusion hfi
          have hM1 : MemoR N (heapPush h ⟨obj.structname, obj.helpstring, []⟩)
              ((sid, h.size) :: m) := by
            intro p hp
            rcases List.mem_cons.mp hp with hp1 | hp2
            · subst hp1
              rw [heapPush_size]
              constructor
              · exact hN
              · omega
            · have := hM p hp2
              rw [heapPush_size]
              omega
          obtain ⟨s1, s2, s3, s4, s5⟩ := dcStore_spec N (dcStruct f) ih obj.store
            (heapPush h ⟨obj.structname, obj.helpstring, []⟩) ((sid, h.size) :: m)
            h2x m2 st2 hcs hN1 hR1 hM1
          rw [heapPush_size] at s1
          have hsz : (heapSet h2x h.size ⟨obj.structname, obj.helpstring, st2⟩).size
              = h2x.size := heapSet_size h2x h.size _
          refine ⟨by omega, ?_, ?_, ?_, by omega, by omega⟩
          · intro i hi
            rw [heapFind_heapSet_ne h2x h.size i _ (by omega),
              s2 i (by rw [heapPush_size]; omega), heapFind_push_lt h _ i hi]
          · intro i obj2 hNi hfi e he r hrr
            rcases eq_or_ne i h.size with heq | hne
            · subst heq
              obtain ⟨o0, ho0⟩ := heapFind_some_of_lt h2x h.size (by omega)
              rw [heapFind_heapSet_self h2x h.size o0 _ ho0] at hfi
              cases hfi
              have := s5 e he r hrr
              rw [hsz]
              omega
            · rw [heapFind_heapSet_ne h2x h.size i _ (fun hee => hne hee.symm)] at hfi
              have := s3 i obj2 hNi hfi e he r hrr
              rw [hsz]
              omega
          · intro p hp
            have := s4 p hp
            rw [hsz]
            omega

/-- A successful `set` requires the target record to exist on the heap. -/
theorem setitemS_ok_lt (f : Nat) (h : Heap) (sid : Nat) (k : String) (v : PyVal)
    (h2 : Heap) (hset : setitemS f h sid k v = .ok h2) : sid < h.size := by
  cases f with
  | zero => exact PRes.noConfusion hset
  | succ f =>
    cases hf : heapFind h sid with
    | none =>
      simp only [setitemS, hf] at hset
      exact PRes.noConfusion hset
    | some obj => exact heapFind_lt_of_some h sid obj hf

/-- The copy constructor only appends to the heap: old cells are
untouched, the copy is a fresh id, and the freshly allocated region is
closed (the copy shares no storage with any pre-existing record). -/
theorem copyInit_fresh (f : Nat) (h : Heap) (orig : Nat) (nm : Option String)
    (h2 : Heap) (cp : Nat)
    (hcp : structCopyInit f h orig nm = .ok (h2, cp)) :
    h.size ≤ h2.size ∧ (∀ i, i < h.size → heapFind h2 i = heapFind h i) ∧
    h.size ≤ cp ∧ cp < h2.size ∧
    closedU h2 (regionL h.size h2.size) = true := by
  unfold structCopyInit at hcp
  split at hcp
  · exact PRes.noConfusion hcp
  · rename_i obj hfo
    split at hcp
    · exact PRes.noConfusion hcp
    · rename_i h1 m1 st2 hcs
      cases hcp
      have hR0 : RefsFrom h.size h := by
        intro i obj2 hNi hfi
        rw [heapFind_none_of_ge h i hNi] at hfi
        exact Option.noConfusion hfi
      have hM0 : MemoR h.size h [] := by
        intro p hp
        simp at hp
      obtain ⟨s1, s2, s3, s4, s5⟩ := dcStore_spec h.size (dcStruct f) (dcStruct_spec h.size f)
        obj.store h [] h1 m1 st2 hcs (Nat.le_refl _) hR0 hM0
      have hps : (heapPush h1 ⟨nm.getD "Struct",
          strReplace obj.helpstring obj.structname (nm.getD "Struct"), st2⟩).size
          = h1.size + 1 := heapPush_size h1 _
      refine ⟨by omega, ?_, by omega, by omega, ?_⟩
      · intro i hi
        rw [heapFind_push_lt h1 _ i (by omega), s2 i hi]
      · refine closedU_intro _ _ ?_
        intro s hs
        rw [regionL_mem] at hs
        rcases eq_or_ne s h1.size with heq | hne
        · subst heq
          refine ⟨_, heapFind_push_self h1 _, ?_⟩
          intro e he r hrr
          have := s5 e he r hrr
          rw [regionL_mem]
          omega
        · have hslt : s < h1.size := by omega
          obtain ⟨o0, ho0⟩ := heapFind_some_of_lt h1 s hslt
          refine ⟨o0, by rw [heapFind_push_lt h1 _ s hslt]; exact ho0, ?_⟩
          intro e he r hrr
          have := s3 s o0 hs.1 ho0 e he r hrr
          rw [regionL_mem]
          omega

/-- C2: copying a record shares no storage with the original at any
depth.  With `S` a closed region of records containing the original
(hence every record reachable from it, at every nesting depth), the copy
constructor allocates the copy inside the fresh closed region
`regionL h.size h2.size`: (1) right after the copy, every `get` of every
field on every record in `S` — at every depth — and every record's
serialization read unchanged; (2) any successful Access-Protocol
mutation of a fresh cell (every `set` through the copy hits one, at any
depth, because the fresh region is closed) leaves every `get` and every
serialization on every record in `S` unchanged; (3) any successful
mutation of a record in `S` (every `set` through the original, at any
depth) leaves every `get` and every serialization on every fresh-region
record — the copy, at every depth — unchanged; and (4) the copy itself
is a fresh-region record and the fresh region is closed. -/
theorem c2_copy_isolation (fc fs g : Nat) (h : Heap) (S : List Nat) (orig : Nat)
    (nm : Option String) (h2 : Heap) (cp : Nat)
    (hS : closedU h S = true) (horig : orig ∈ S)
    (hcopy : structCopyInit fc h orig nm = .ok (h2, cp)) :
    (∀ s ∈ S, (∀ k, getitemS g h2 s k = getitemS g h s k) ∧
      pickleS g h2 s = pickleS g h s) ∧
    (∀ t k2 v h3, h.size ≤ t → setitemS fs h2 t k2 v = .ok h3 →
      ∀ s ∈ S, (∀ k, getitemS g h3 s k = getitemS g h2 s k) ∧
        pickleS g h3 s = pickleS g h2 s) ∧
    (∀ t k2 v h3, t ∈ S → setitemS fs h2 t k2 v = .ok h3 →
      ∀ r ∈ regionL h.size h2.size, (∀ k, getitemS g h3 r k = getitemS g h2 r k) ∧
        pickleS g h3 r = pickleS g h2 r) ∧
    (cp ∈ regionL h.size h2.size ∧ closedU h2 (regionL h.size h2.size) = true) := by
  obtain ⟨f1, f2, f3, f4, f5⟩ := copyInit_fresh fc h orig nm h2 cp hcopy
  have hagS : agreeOn h h2 S := by
    intro s hs
    exact (f2 s (mem_lt_size h S hS s hs)).symm
  have hS2 : closedU h2 S = true := closedU_agree h h2 S hS hagS
  refine ⟨?_, ?_, ?_, (regionL_mem h.size h2.size cp).mpr ⟨f3, f4⟩, f5⟩
  · intro s hs
    exact ⟨fun k => (getitem_agree g h h2 S hS hagS s hs k).symm,
      (pickle_agree g h h2 S hS hagS s hs).symm⟩
  · intro t k2 v h3 ht hset s hs
    have htR : t ∈ regionL h.size h2.size := by
      rw [regionL_mem]
      exact ⟨ht, setitemS_ok_lt fs h2 t k2 v h3 hset⟩
    obtain ⟨fr1, fr2⟩ := setitem_frame fs h2 t k2 v h3 (regionL h.size h2.size) f5 htR hset
    have hag2 : agreeOn h2 h3 S := by
      intro s2 hs2
      have hsl : s2 < h.size := mem_lt_size h S hS s2 hs2
      exact (fr1 s2 (by rw [regionL_mem]; omega)).symm
    exact ⟨fun k => (getitem_agree g h2 h3 S hS2 hag2 s hs k).symm,
      (pickle_agree g h2 h3 S hS2 hag2 s hs).symm⟩
  · intro t k2 v h3 ht hset r hr
    obtain ⟨fr1, fr2⟩ := setitem_frame fs h2 t k2 v h3 S hS2 ht hset
    have hag2 : agreeOn h2 h3 (regionL h.size h2.size) := by
      intro r2 hr2
      rw [regionL_mem] at hr2
      refine (fr1 r2 ?_).symm
      intro hrS
      have := mem_lt_size h S hS r2 hrS
      omega
    exact ⟨fun k => (getitem_agree g h2 h3 (regionL h.size h2.size) f5 hag2 r hr k).symm,
      (pickle_agree g h2 h3 (regionL h.size h2.size) f5 hag2 r hr).symm⟩

theorem c2_copy_isolation_witness :
    (getitemS 9 (resHeap exCopy) 1 "nested" = getitemS 9 (resHeap exParent) 1 "nested" ∧
      pickleS 9 (resHeap exCopy) 2 = pickleS 9 (resHeap exParent) 2) ∧
    (getitemS 9 exCopyMut 1 "nested" = getitemS 9 (resHeap exCopy) 1 "nested" ∧
      pickleS 9 exCopyMut 2 = pickleS 9 (resHeap exCopy) 2) ∧
    (getitemS 9 exOrigMut 4 "b" = getitemS 9 (resHeap exCopy) 4 "b" ∧
      pickleS 9 exOrigMut 4 = pickleS 9 (resHeap exCopy) 4) := by
  have hth := c2_copy_isolation 9 9 9 (resHeap exParent) [0, 1, 2] 2
    (some "Copy") (resHeap exCopy) 4 (by decide) (by decide) (by decide)
  refine ⟨⟨(hth.1 1 (by decide)).1 "nested", (hth.1 2 (by decide)).2⟩, ?_, ?_⟩
  · have h2 := hth.2.1 4 "b" (.int 77) exCopyMut (by decide) (by decide)
    exact ⟨(h2 1 (by decide)).1 "nested", (h2 2 (by decide)).2⟩
  · have h3 := hth.2.2.1 2 "b" (.int 42) exOrigMut (by decide) (by decide)
    exact ⟨(h3 4 (by decide)).1 "b", (h3 4 (by decide)).2⟩

theorem PRes.bindM_eq {α β : Type} (x : PRes α) (f : α → PRes β) :
    (x >>= f) = PRes.bind x f := rfl

theorem PRes.pure_eq {α : Type} (a : α) : (pure a : PRes α) = PRes.ok a := rfl

theorem pickleEntries_cons_eq (cb : Nat → PRes Bytes) (cg : Nat → String → PRes PyVal)
    (pk : String) (pe : Entry) (rest : List (String × Entry)) :
    pickleEntries cb cg ((pk, pe) :: rest) =
      PRes.bind (pickleHead cb cg pe)
        (fun b => PRes.bind (pickleEntries cb cg rest) (fun rb => PRes.ok (b ++ rb))) := by
  cases pe with
  | fdict d =>
    cases hdv : d.value with
    | none => simp [pickleEntries, pickleHead, hdv]
    | some fv =>
      cases fv with
      | bytes bs => simp [pickleEntries, pickleHead, hdv, PRes.bindM_eq, PRes.pure_eq]
      | ref s2 => simp [pickleEntries, pickleHead, hdv, PRes.bindM_eq, PRes.pure_eq]
  | sref c =>
    cases hg : cg c "value" with
    | exn e => simp [pickleEntries, pickleHead, hg, PRes.bindM_eq, PRes.pure_eq]
    | div => simp [pickleEntries, pickleHead, hg, PRes.bindM_eq, PRes.pure_eq]
    | ok fv =>
      cases fv with
      | struct s2 => simp [pickleEntries, pickleHead, hg, PRes.bindM_eq, PRes.pure_eq]
      | bytes bs => simp [pickleEntries, pickleHead, hg, PRes.bindM_eq, PRes.pure_eq]
      | int z => simp [pickleEntries, pickleHead, hg, PRes.bindM_eq, PRes.pure_eq]
      | bool b => simp [pickleEntries, pickleHead, hg, PRes.bindM_eq, PRes.pure_eq]
      | float fb => simp [pickleEntries, pickleHead, hg, PRes.bindM_eq, PRes.pure_eq]

theorem pickleEntries_append_ok (cb : Nat → PRes Bytes) (cg : Nat → String → PRes PyVal) :
    ∀ (xs ys : List (String × Entry)) (A B : Bytes),
      pickleEntries cb cg xs = .ok A → pickleEntries cb cg ys = .ok B →
      pickleEntries cb cg (xs ++ ys) = .ok (A ++ B) := by
  intro xs
  induction xs with
  | nil =>
    intro ys A B hA hB
    have hA2 : PRes.ok ([] : Bytes) = PRes.ok A := hA
    cases hA2
    simpa using hB
  | cons p rest ih =>
    intro ys A B hA hB
    obtain ⟨pk, pe⟩ := p
    rw [List.cons_append]
    rw [pickleEntries_cons_eq] at hA ⊢
    revert hA
    cases hh : pickleHead cb cg pe with
    | exn e => intro hA; rw [PRes.bind_exn] at hA; exact PRes.noConfusion hA
    | div => intro hA; rw [PRes.bind_div] at hA; exact PRes.noConfusion hA
    | ok b =>
      intro hA
      rw [PRes.bind_ok] at hA ⊢
      revert ih hA
      cases hr : pickleEntries cb cg rest with
      | exn e => intro ih hA; rw [PRes.bind_exn] at hA; exact PRes.noConfusion hA
      | div => intro ih hA; rw [PRes.bind_div] at hA; exact PRes.noConfusion hA
      | ok rb =>
        intro ih hA
        rw [PRes.bind_ok] at hA
        cases hA
        rw [ih ys rb B rfl hB, PRes.bind_ok, List.append_assoc]

theorem storeGet_append_skip (pre post : List (String × Entry)) (n : String) (e : Entry)
    (hpre : ∀ q ∈ pre, ¬ q.1 = n) :
    storeGet (pre ++ (n, e) :: post) n = some e := by
  induction pre with
  | nil => simp [storeGet]
  | cons q rest ih =>
    obtain ⟨qk, qe⟩ := q
    have hq : ¬ qk = n := hpre (qk, qe) (by simp)
    have hqb : (qk == n) = false := by
      cases hb : qk == n
      · rfl
      · exact absurd (eq_of_beq hb) hq
    rw [List.cons_append]
    simp only [storeGet, hqb, Bool.false_eq_true, if_false]
    exact ih (fun q2 hq2 => hpre q2 (by simp [hq2]))

/-- C8: on a store whose entry for `n` is a nested field holding child
`c`, `get(n)` returns the stored child record itself — the very heap
reference `c`, not a copy — and after any successful `set` through that
alias, the parent's `serialize()` output reflects the mutation at `n`'s
position: it is the unchanged bytes of the fields before `n`, then the
child's new serialized bytes, then the unchanged bytes of the fields
after `n`. -/
theorem c8_nested_alias (g fs : Nat) (h : Heap) (p c : Nat) (n k : String) (v : PyVal)
    (obj : StructObj) (d : FieldDict) (pre post : List (String × Entry))
    (S T : List Nat) (h3 : Heap) (A B nb : Bytes)
    (hfp : heapFind h p = some obj)
    (hst : obj.store = pre ++ (n, .fdict d) :: post)
    (hdt : d.type = some (.struct c))
    (hdv : d.value = some (.ref c))
    (hpre : ∀ q ∈ pre, ¬ q.1 = n)
    (hS : closedU h S = true) (hcS : c ∈ S) (hpS : p ∉ S)
    (hT : closedU h T = true) (hTS : ∀ t ∈ T, t ∉ S)
    (hpreT : ∀ e2 ∈ pre.map Prod.snd, ∀ r ∈ entryRefs e2, r ∈ T)
    (hpostT : ∀ e2 ∈ post.map Prod.snd, ∀ r ∈ entryRefs e2, r ∈ T)
    (hset : setitemS fs h c k v = .ok h3)
    (hA : pickleEntries (pickleS g h) (getitemS g h) pre = .ok A)
    (hB : pickleEntries (pickleS g h) (getitemS g h) post = .ok B)
    (hnb : pickleS g h3 c = .ok nb) :
    getitemS (g + 1) h p n = .ok (.struct c) ∧
    pickleS (g + 1) h3 p = .ok (A ++ nb ++ B) := by
  obtain ⟨dt, dd, dh, dv⟩ := d
  have hdt2 : dt = some (.struct c) := hdt
  have hdv2 : dv = some (.ref c) := hdv
  subst hdt2
  subst hdv2
  have hsg : storeGet obj.store n = some (.fdict ⟨some (.struct c), dd, dh, some (.ref c)⟩) := by
    rw [hst]
    exact storeGet_append_skip pre post n _ hpre
  constructor
  · simp only [getitemS, hfp, hsg]
    rfl
  · obtain ⟨fr1, _⟩ := setitem_frame fs h c k v h3 S hS hcS hset
    have hfp3 : heapFind h3 p = some obj := by rw [fr1 p hpS, hfp]
    have hag : agreeOn h h3 T := fun t htT => (fr1 t (hTS t htT)).symm
    have hcbT : ∀ s ∈ T, pickleS g h s = pickleS g h3 s :=
      pickle_agree g h h3 T hT hag
    have hcgT : ∀ s ∈ T, ∀ k2, getitemS g h s k2 = getitemS g h3 s k2 := fun s hs k2 =>
      getitem_agree g h h3 T hT hag s hs k2
    have hcgrT : ∀ s ∈ T, ∀ k2 r, getitemS g h s k2 = .ok (.struct r) → r ∈ T :=
      fun s hs k2 r => getitem_ref_mem g h T hT s hs k2 r
    have hpre3 : pickleEntries (pickleS g h3) (getitemS g h3) pre = .ok A := by
      rw [← pickleEntries_congr (pickleS g h) (pickleS g h3) (getitemS g h) (getitemS g h3)
        T hcbT hcgT hcgrT pre hpreT]
      exact hA
    have hpost3 : pickleEntries (pickleS g h3) (getitemS g h3) post = .ok B := by
      rw [← pickleEntries_congr (pickleS g h) (pickleS g h3) (getitemS g h) (getitemS g h3)
        T hcbT hcgT hcgrT post hpostT]
      exact hB
    have hmid : pickleEntries (pickleS g h3) (getitemS g h3)
        ((n, Entry.fdict ⟨some (.struct c), dd, dh, some (.ref c)⟩) :: post)
        = .ok (nb ++ B) := by
      rw [pickleEntries_cons_eq]
      simp only [pickleHead]
      rw [hnb, PRes.bind_ok, hpost3, PRes.bind_ok]
    have hall := pickleEntries_append_ok (pickleS g h3) (getitemS g h3) pre
      ((n, Entry.fdict ⟨some (.struct c), dd, dh, some (.ref c)⟩) :: post)
      A (nb ++ B) hpre3 hmid
    simp only [pickleS, hfp3, hst]
    rw [hall, List.append_assoc]

theorem c8_nested_alias_witness :
    getitemS 10 (resHeap exParent) 2 "a" = .ok (.struct 1) ∧
    pickleS 10 exAliasMut 2 = .ok ([1] ++ [98, 97, 122, 0, 0, 0, 0, 0] ++ []) :=
  c8_nested_alias 9 9 (resHeap exParent) 2 1 "a" "nested" (.bytes [98, 97, 122])
    exParentObj exParentD exParentPre [] [1] [] exAliasMut [1] [] [98, 97, 122, 0, 0, 0, 0, 0]
    (by decide) (by decide) (by decide) (by decide) (by decide) (by decide) (by decide)
    (by decide) (by decide) (by decide) (by decide) (by decide) (by decide) (by decide)
    (by decide) (by decide)

end PyStruct
